import Mathlib

/-!
# Verification of the Drive Duplicate Cleaner decision engine

Shallow embedding of the TypeScript sources of `gdrive-duplicates-cleaner`
(`src/config.ts`, `src/utils.ts`, `src/processors.ts`, `src/folder-merger.ts`,
`src/main.ts`) into Lean 4, together with theorems settling the specification
claims about the dedup / folder-merge decision engine.

Modelling conventions:
* JavaScript millisecond timestamps are modelled as `Int` (they are exact
  integers in the real store; `getTime()` returns integral milliseconds).
* Drive ids are modelled as `Nat`.
* An MD5 checksum fetch that fails, and a file with no checksum, both yield
  `none` (the source treats both identically: the file is skipped).
* The wall clock (`Date.now()` timeout checks) is modelled as an oracle
  `timeUp : Nat → Bool` giving the result of the n-th timeout comparison,
  threaded through a counter; `Math.random()` in the Fisher-Yates shuffle is
  modelled by an oracle `rand : Nat → Nat` (clamped into range like
  `Math.floor(Math.random() * (i + 1))`).
* Folder/file listings (`getFiles`, `getFilesByName`, `getFolders`) return the
  store's current children, including trashed entries; the source code's own
  `isTrashed()` checks are modelled where (and only where) the source has them.
-/

/-! ## Data model (store-side records) -/

/-- A file as seen through the Store capability: identity, name, optional
content hash, creation timestamp (ms), size, containing folder, trashed flag.
Mirrors the fields `processors.ts`/`folder-merger.ts` read off
`GoogleAppsScript.Drive.File` plus the Drive-API `md5Checksum`. -/
structure MFile where
  id : Nat
  name : String
  md5 : Option String
  created : Int
  size : Nat
  folderId : Nat
  trashed : Bool
deriving Repr, DecidableEq

/-- A folder record: identity, name, parent (none for a root), creation and
last-modification timestamps, trashed flag. -/
structure MFolder where
  id : Nat
  name : String
  parentId : Option Nat
  created : Int
  lastUpdated : Int
  trashed : Bool
deriving Repr, DecidableEq

/-- The remote store: a flat pool of folders and files. -/
structure MStore where
  folders : List MFolder
  files : List MFile
deriving Repr, DecidableEq

/-- `folder.getFiles()`: the files whose parent is `fid`. -/
def MStore.filesIn (s : MStore) (fid : Nat) : List MFile :=
  s.files.filter (fun f => f.folderId = fid)

/-- `folder.getFilesByName(n)` on folder `fid`. -/
def MStore.filesByName (s : MStore) (fid : Nat) (n : String) : List MFile :=
  (s.filesIn fid).filter (fun f => f.name = n)

/-- `folder.getFolders()`: child folders of `fid`. -/
def MStore.childFolders (s : MStore) (fid : Nat) : List MFolder :=
  s.folders.filter (fun f => f.parentId = some fid)

/-- `isFolderEmpty` (folder-merger.ts): no files and no subfolders. -/
def MStore.isFolderEmptyB (s : MStore) (fid : Nat) : Bool :=
  (s.filesIn fid).isEmpty && (s.childFolders fid).isEmpty

/-! ## Runtime configuration (`config.ts` / the extended variant) -/

inductive FolderSortMode | LAST_UPDATED | RANDOM
deriving Repr, DecidableEq

inductive KeepStrategy | OLDEST | NEWEST | MOST_FILES
deriving Repr, DecidableEq

/-- `RuntimeConfig` from `config.ts` (extended variant with the merge options):
only the fields the decision engine reads.  `DUPLICATION_WINDOW_MS`,
`MAX_EXECUTION_TIME_MS` and `FILE_AGE_FILTER_MS` are the precomputed
millisecond values `getConfig` derives. -/
structure RuntimeConfig where
  ROOT_FOLDER_IDS : List Nat
  DUPLICATION_WINDOW_MS : Int
  FILE_AGE_FILTER_MS : Int
  EXCLUDED_FOLDER_IDS : List Nat
  EXCLUDED_EXTENSIONS : List String
  FOLDER_SORT_MODE : FolderSortMode
  MERGE_DUPLICATE_FOLDERS : Bool
  MERGE_FOLDERS_RECURSIVE : Bool
  MERGE_KEEP_FOLDER_STRATEGY : KeepStrategy
  DRY_RUN : Bool
deriving Repr, DecidableEq

/-! ## `utils.ts` -/

/-- ASCII lowercasing of one character — the effect of JavaScript
`toLowerCase()` on the ASCII folder/file names this engine handles (written
out explicitly so that concrete runs evaluate inside the kernel). -/
def lowerChar (c : Char) : Char :=
  if 65 ≤ c.toNat ∧ c.toNat ≤ 90 then Char.ofNat (c.toNat + 32) else c

/-- `toLowerCase()` of a string. -/
def lowerStr (s : String) : String := String.mk (s.data.map lowerChar)

/-- Index (in characters) of the last `'.'` of a string, if any; models
JavaScript `String.prototype.lastIndexOf('.')` (with `none` for `-1`). -/
def lastDotIdx (s : String) : Option Nat :=
  (List.range s.length).foldl
    (fun acc i => if s.data.getD i ' ' = '.' then some i else acc) none

/-- `getFileExtension` (utils.ts):
`filename.slice(((filename.lastIndexOf('.') - 1) >>> 0) + 2).toLowerCase()`.
For `lastIndexOf = -1` the `>>> 0` wrap makes the slice start at `2^32`, and
for `lastIndexOf = 0` at `2^32 + 1`; both out-of-range starts yield `""`.
For a last dot at index `i ≥ 1` the slice starts at `i + 1`. -/
def getFileExtension (filename : String) : String :=
  match lastDotIdx filename with
  | none => ""
  | some 0 => ""
  | some i => lowerStr (String.mk (filename.data.drop (i + 1)))

/-- `isFileExcluded` (utils.ts): an empty exclusion set excludes nothing;
otherwise the (lowercased) extension is tested for membership. -/
def isFileExcluded (f : MFile) (excludedExtensions : List String) : Bool :=
  if excludedExtensions.isEmpty then false
  else excludedExtensions.contains (getFileExtension f.name)

/-- Walk of the parent chain used by `isFolderExcluded` (utils.ts): follows
`getParents()` upward and reports whether some ancestor id is excluded.
`fuel` bounds the walk (the real parent chain of a Drive folder is finite). -/
def ancestorExcluded (s : MStore) (excluded : List Nat) :
    Nat → Option Nat → Bool
  | 0, _ => false
  | _ + 1, none => false
  | fuel + 1, some pid =>
    if excluded.contains pid then true
    else
      match s.folders.find? (fun f => f.id = pid) with
      | none => false
      | some f => ancestorExcluded s excluded fuel f.parentId

/-- `isFolderExcluded` (utils.ts): with an empty exclusion list, false;
otherwise true iff the folder itself or one of its ancestors is excluded. -/
def isFolderExcluded (s : MStore) (f : MFolder) (excluded : List Nat)
    (fuel : Nat) : Bool :=
  if excluded.isEmpty then false
  else if excluded.contains f.id then true
  else ancestorExcluded s excluded fuel f.parentId

/-! ## Phase 2: `processFolder` (processors.ts)

The dedup pass over one folder.  The source builds `fileGroups` (a map from
MD5 to the files carrying it, in encounter order), counting analyzed/skipped
files on the way, then walks each group: groups of size `> 1` are sorted by
creation date and every member after the first whose distance to the oldest is
strictly below `DUPLICATION_WINDOW_MS` is a deletion decision (trashed unless
`DRY_RUN`). -/

/-- The per-file filter of the grouping loop: a non-trashed file enters a
group iff its extension is not excluded and it has an MD5. -/
def dedupEligible (cfg : RuntimeConfig) (f : MFile) : Bool :=
  !f.trashed && !isFileExcluded f cfg.EXCLUDED_EXTENSIONS && f.md5.isSome

/-- Files of the folder that end up in `fileGroups`, in iteration order. -/
def eligibleFiles (cfg : RuntimeConfig) (files : List MFile) : List MFile :=
  files.filter (dedupEligible cfg)

/-- A non-trashed file is counted in `filesSkipped` iff it is dropped by the
extension filter or has no MD5 (checksum missing or fetch failed). -/
def dedupSkipped (cfg : RuntimeConfig) (f : MFile) : Bool :=
  !f.trashed && (isFileExcluded f cfg.EXCLUDED_EXTENSIONS || !f.md5.isSome)

/-- First-occurrence deduplication of a key list (the insertion order of the
keys of the JavaScript object `fileGroups`). -/
def dedupKeysAux (seen : List String) : List String → List String
  | [] => []
  | k :: rest =>
    if seen.contains k then dedupKeysAux seen rest
    else k :: dedupKeysAux (k :: seen) rest

/-- The MD5 keys of `fileGroups`, in insertion order. -/
def groupKeys (files : List MFile) : List String :=
  dedupKeysAux [] (files.filterMap (fun f => f.md5))

/-- The group of one MD5 key: the eligible files carrying it, in encounter
order (exactly the order the source pushes them into `fileGroups[md5]`). -/
def groupOf (files : List MFile) (k : String) : List MFile :=
  files.filter (fun f => f.md5 = some k)

/-- `fileGroups` of `processFolder`: key/group pairs in insertion order. -/
def fileGroups (cfg : RuntimeConfig) (files : List MFile) :
    List (String × List MFile) :=
  (groupKeys (eligibleFiles cfg files)).map
    (fun k => (k, groupOf (eligibleFiles cfg files) k))

/-- Stable insertion of a file into a creation-sorted list: the new element
goes before the first strictly-later element, after any equal ones coming from
earlier input — the behaviour of the (stable) JavaScript
`group.sort((a, b) => a.created - b.created)`. -/
def insertByCreated (f : MFile) : List MFile → List MFile
  | [] => [f]
  | g :: gs =>
    if f.created ≤ g.created then f :: g :: gs else g :: insertByCreated f gs

/-- Stable ascending sort by creation date. -/
def sortByCreated : List MFile → List MFile
  | [] => []
  | f :: fs => insertByCreated f (sortByCreated fs)

/-- The deletion decisions of one MD5 group: after sorting by creation date,
every member other than the oldest whose distance to the oldest is strictly
below the window.  (For groups of size ≤ 1 this is empty, matching the
`group.length > 1` guard of the source.) -/
def groupDecisions (cfg : RuntimeConfig) (g : List MFile) : List MFile :=
  match sortByCreated g with
  | [] => []
  | oldest :: rest =>
    rest.filter (fun f => f.created - oldest.created < cfg.DUPLICATION_WINDOW_MS)

/-- Ids of all files `processFolder` decides to delete (the files on which
`setTrashed(true)` is called when `DRY_RUN` is off, and which are counted in
`filesDeleted` in either mode). -/
def dedupTrashIds (cfg : RuntimeConfig) (files : List MFile) : List Nat :=
  ((fileGroups cfg files).map (fun kg => (groupDecisions cfg kg.2).map MFile.id)).flatten

/-- Statistics returned by `processFolder` for one folder. -/
structure FolderStats where
  filesAnalyzed : Nat
  filesSkipped : Nat
  filesDeleted : Nat
  spaceFreed : Nat
deriving Repr, DecidableEq

/-- The statistics `processFolder` computes; note they never consult
`DRY_RUN` (only the log text does) and never consult the clock or
`FILE_AGE_FILTER_MS`. -/
def processFolderStats (cfg : RuntimeConfig) (files : List MFile) : FolderStats :=
  { filesAnalyzed := (eligibleFiles cfg files).length
    filesSkipped := (files.filter (dedupSkipped cfg)).length
    filesDeleted :=
      ((fileGroups cfg files).map (fun kg => (groupDecisions cfg kg.2).length)).sum
    spaceFreed :=
      ((fileGroups cfg files).map
        (fun kg => ((groupDecisions cfg kg.2).map MFile.size).sum)).sum }

/-- Marking a set of file ids as trashed (the effect of the `setTrashed(true)`
calls on a folder's file list). -/
def markTrashed (ids : List Nat) (files : List MFile) : List MFile :=
  files.map (fun f => if ids.contains f.id then { f with trashed := true } else f)

/-- The folder's file list after one `processFolder` run: unchanged under
`DRY_RUN`, otherwise with every decided duplicate trashed. -/
def processFolderRun (cfg : RuntimeConfig) (files : List MFile) : List MFile :=
  if cfg.DRY_RUN then files else markTrashed (dedupTrashIds cfg files) files

/-! ## Lemmas about the Phase-2 building blocks -/

theorem insertByCreated_perm (f : MFile) (l : List MFile) :
    (insertByCreated f l).Perm (f :: l) := by
  induction l with
  | nil => exact List.Perm.refl _
  | cons g gs ih =>
    simp only [insertByCreated]
    split
    · exact List.Perm.refl _
    · exact (List.Perm.cons g ih).trans (List.Perm.swap f g gs)

theorem sortByCreated_perm (l : List MFile) : (sortByCreated l).Perm l := by
  induction l with
  | nil => exact List.Perm.refl _
  | cons f fs ih =>
    exact (insertByCreated_perm f (sortByCreated fs)).trans (List.Perm.cons f ih)

theorem mem_sortByCreated {l : List MFile} {x : MFile} :
    x ∈ sortByCreated l ↔ x ∈ l :=
  (sortByCreated_perm l).mem_iff

theorem insertByCreated_pairwise {f : MFile} {l : List MFile}
    (h : l.Pairwise (fun a b => a.created ≤ b.created)) :
    (insertByCreated f l).Pairwise (fun a b => a.created ≤ b.created) := by
  induction l with
  | nil => simp [insertByCreated]
  | cons g gs ih =>
    rcases List.pairwise_cons.1 h with ⟨hg, hgs⟩
    simp only [insertByCreated]
    split
    case isTrue hle =>
      refine List.pairwise_cons.2 ⟨?_, h⟩
      intro x hx
      rcases List.mem_cons.1 hx with rfl | hx
      · exact hle
      · exact le_trans hle (hg x hx)
    case isFalse hgt =>
      refine List.pairwise_cons.2 ⟨?_, ih hgs⟩
      intro x hx
      rcases List.mem_cons.1 ((insertByCreated_perm f gs).mem_iff.1 hx) with rfl | hx
      · exact le_of_lt (lt_of_not_le hgt)
      · exact hg x hx

theorem sortByCreated_pairwise (l : List MFile) :
    (sortByCreated l).Pairwise (fun a b => a.created ≤ b.created) := by
  induction l with
  | nil => simp [sortByCreated]
  | cons f fs ih => exact insertByCreated_pairwise ih

/-- The head of the creation-sorted group has the minimum creation time. -/
theorem sorted_head_min {g : List MFile} {m : MFile} {rest : List MFile}
    (hs : sortByCreated g = m :: rest) : ∀ x ∈ g, m.created ≤ x.created := by
  intro x hx
  have hx' : x ∈ m :: rest := hs ▸ mem_sortByCreated.2 hx
  rcases List.mem_cons.1 hx' with rfl | hx'
  · exact le_refl _
  · have hp := sortByCreated_pairwise g
    rw [hs] at hp
    exact (List.pairwise_cons.1 hp).1 x hx'

theorem mem_dedupKeysAux {seen : List String} {l : List String} {k : String} :
    k ∈ dedupKeysAux seen l ↔ k ∈ l ∧ k ∉ seen := by
  induction l generalizing seen with
  | nil => simp [dedupKeysAux]
  | cons a rest ih =>
    simp only [dedupKeysAux]
    split
    case isTrue hc =>
      rw [ih]
      simp only [List.mem_cons]
      constructor
      · rintro ⟨h1, h2⟩; exact ⟨Or.inr h1, h2⟩
      · rintro ⟨h1 | h1, h2⟩
        · subst h1; exact absurd (List.elem_iff.mp hc) h2
        · exact ⟨h1, h2⟩
    case isFalse hc =>
      simp only [List.mem_cons, ih, List.mem_cons]
      constructor
      · rintro (rfl | ⟨h1, h2⟩)
        · exact ⟨Or.inl rfl, fun hk => hc (List.elem_iff.mpr hk)⟩
        · exact ⟨Or.inr h1, fun hk => h2 (Or.inr hk)⟩
      · rintro ⟨h1 | h1, h2⟩
        · exact Or.inl h1
        · by_cases hak : k = a
          · exact Or.inl hak
          · exact Or.inr ⟨h1, fun hk => hk.elim (fun h => hak h) h2⟩

theorem mem_groupKeys {files : List MFile} {k : String} :
    k ∈ groupKeys files ↔ ∃ f ∈ files, f.md5 = some k := by
  unfold groupKeys
  rw [mem_dedupKeysAux]
  simp [List.mem_filterMap]

theorem mem_groupOf_iff {l : List MFile} {k : String} {f : MFile} :
    f ∈ groupOf l k ↔ f ∈ l ∧ f.md5 = some k := by
  simp [groupOf]

theorem mem_fileGroups_iff {cfg : RuntimeConfig} {files : List MFile}
    {k : String} {g : List MFile} :
    (k, g) ∈ fileGroups cfg files ↔
      k ∈ groupKeys (eligibleFiles cfg files) ∧
        g = groupOf (eligibleFiles cfg files) k := by
  unfold fileGroups
  rw [List.mem_map]
  constructor
  · rintro ⟨k', hk', heq⟩
    obtain ⟨rfl, rfl⟩ := Prod.mk.injEq .. ▸ heq
    exact ⟨hk', rfl⟩
  · rintro ⟨hk, rfl⟩
    exact ⟨k, hk, rfl⟩

theorem eligible_sublist (cfg : RuntimeConfig) (files : List MFile) :
    List.Sublist (eligibleFiles cfg files) files :=
  List.filter_sublist files

theorem groupOf_sublist (l : List MFile) (k : String) : List.Sublist (groupOf l k) l :=
  List.filter_sublist l

theorem ids_nodup_of_sublist {l l' : List MFile} (hs : List.Sublist l l')
    (h : (l'.map MFile.id).Nodup) : (l.map MFile.id).Nodup :=
  List.Nodup.sublist (hs.map MFile.id) h

/-- Two members of a list with no duplicate ids sharing an id are equal. -/
theorem eq_of_same_id {l : List MFile} (h : (l.map MFile.id).Nodup)
    {f g : MFile} (hf : f ∈ l) (hg : g ∈ l) (hid : f.id = g.id) : f = g :=
  List.inj_on_of_nodup_map h hf hg hid

theorem mem_of_mem_groupDecisions {cfg : RuntimeConfig} {g : List MFile}
    {f : MFile} (h : f ∈ groupDecisions cfg g) : f ∈ g := by
  unfold groupDecisions at h
  cases hs : sortByCreated g with
  | nil => rw [hs] at h; cases h
  | cons m rest =>
    rw [hs] at h
    have h1 : f ∈ rest := List.mem_of_mem_filter h
    have h2 : f ∈ sortByCreated g := by
      rw [hs]; exact List.mem_cons_of_mem _ h1
    exact mem_sortByCreated.1 h2

theorem mem_dedupTrashIds_iff {cfg : RuntimeConfig} {files : List MFile} {i : Nat} :
    i ∈ dedupTrashIds cfg files ↔
      ∃ kg ∈ fileGroups cfg files, ∃ d ∈ groupDecisions cfg kg.2, d.id = i := by
  unfold dedupTrashIds
  simp only [List.mem_flatten, List.mem_map]
  constructor
  · rintro ⟨l, ⟨kg, hkg, rfl⟩, hil⟩
    rcases List.mem_map.1 hil with ⟨d, hd, rfl⟩
    exact ⟨kg, hkg, d, hd, rfl⟩
  · rintro ⟨kg, hkg, d, hd, rfl⟩
    exact ⟨(groupDecisions cfg kg.2).map MFile.id, ⟨kg, hkg, rfl⟩,
      List.mem_map.2 ⟨d, hd, rfl⟩⟩

/-- Central correspondence: for a file of some dedup group (over a store with
unique file ids), its id is among the deletion decisions iff it is a decision
of its own group. -/
theorem mem_trashIds_iff_decision {cfg : RuntimeConfig} {files : List MFile}
    (hids : (files.map MFile.id).Nodup) {k : String} {g : List MFile}
    (hg : (k, g) ∈ fileGroups cfg files) {f : MFile} (hf : f ∈ g) :
    f.id ∈ dedupTrashIds cfg files ↔ f ∈ groupDecisions cfg g := by
  obtain ⟨hk, rfl⟩ := mem_fileGroups_iff.1 hg
  have helig : ((eligibleFiles cfg files).map MFile.id).Nodup :=
    ids_nodup_of_sublist (eligible_sublist cfg files) hids
  constructor
  · intro hi
    rcases mem_dedupTrashIds_iff.1 hi with ⟨⟨k', g'⟩, hkg', d, hd, hdi⟩
    obtain ⟨hk', rfl⟩ := mem_fileGroups_iff.1 hkg'
    have hd' : d ∈ groupOf (eligibleFiles cfg files) k' := mem_of_mem_groupDecisions hd
    have hde : d ∈ eligibleFiles cfg files := (mem_groupOf_iff.1 hd').1
    have hfe : f ∈ eligibleFiles cfg files := (mem_groupOf_iff.1 hf).1
    have hdf : d = f := eq_of_same_id helig hde hfe hdi
    subst hdf
    have : some k' = some k := by
      rw [← (mem_groupOf_iff.1 hd').2, ← (mem_groupOf_iff.1 hf).2]
    obtain rfl : k' = k := Option.some.inj this
    exact hd
  · intro hdec
    exact mem_dedupTrashIds_iff.2
      ⟨(k, groupOf (eligibleFiles cfg files) k), mem_fileGroups_iff.2 ⟨hk, rfl⟩,
        f, hdec, rfl⟩

/-! ## Concrete fixtures (spec §8 Scenario A and friends) -/

/-- A live-mode configuration: 24-hour duplication window, no filters. -/
def liveCfg : RuntimeConfig :=
  ⟨[100], 86400000, 0, [], [], FolderSortMode.LAST_UPDATED, false, true,
    KeepStrategy.OLDEST, false⟩

/-- Scenario A, file A: t = 0 h, hash `h1`. -/
def fileA : MFile := ⟨1, "a.pdf", some "h1", 0, 100, 10, false⟩

/-- Scenario A, file B: t = 1 h, hash `h1`. -/
def fileB : MFile := ⟨2, "b.pdf", some "h1", 3600000, 200, 10, false⟩

/-- Scenario A, file C: t = 30 h, hash `h1`. -/
def fileC : MFile := ⟨3, "c.pdf", some "h1", 108000000, 300, 10, false⟩

/-- Boundary fixture: earliest member of an `h2` group, t = 0. -/
def fileE : MFile := ⟨5, "e.pdf", some "h2", 0, 50, 11, false⟩

/-- Boundary fixture: second member of the `h2` group, created exactly one
duplication window (24 h) after `fileE`. -/
def fileD : MFile := ⟨4, "d.pdf", some "h2", 86400000, 50, 11, false⟩

/-! ## Claim C1 -/

/-- **C1.** For every dedup group produced by Phase 2 (grouping a folder's
visible hashed files by content hash), the earliest-created member of the
group is never trashed, for all group sizes ≥ 1, in both dry-run and live
mode: over a store with unique file ids, every group of `fileGroups` has a
member `m` of minimum creation time that is untrashed, whose id is never a
deletion decision, and that is still untrashed in the file list produced by
`processFolder` (which equals the input under `DRY_RUN` and carries out the
`setTrashed(true)` decisions otherwise). -/
theorem c1_earliest_member_never_trashed (cfg : RuntimeConfig)
    (files : List MFile) (hids : (files.map MFile.id).Nodup)
    (k : String) (g : List MFile) (hg : (k, g) ∈ fileGroups cfg files)
    (hne : g ≠ []) :
    ∃ m ∈ g, (∀ x ∈ g, m.created ≤ x.created) ∧ m.trashed = false ∧
      m.id ∉ dedupTrashIds cfg files ∧
      ∀ f' ∈ processFolderRun cfg files, f'.id = m.id → f'.trashed = false := by
  cases hs : sortByCreated g with
  | nil =>
    have h0 : List.Perm ([] : List MFile) g := hs ▸ sortByCreated_perm g
    exact absurd h0.nil_eq.symm hne
  | cons m rest =>
    have hmg : m ∈ g := mem_sortByCreated.1 (by rw [hs]; exact List.mem_cons_self m rest)
    have hmin := sorted_head_min hs
    have hgsub : List.Sublist g (eligibleFiles cfg files) := by
      obtain ⟨hk, rfl⟩ := mem_fileGroups_iff.1 hg
      exact groupOf_sublist _ k
    have hme : m ∈ eligibleFiles cfg files := hgsub.subset hmg
    have hmfiles : m ∈ files := (eligible_sublist cfg files).subset hme
    have hgnodup : (g.map MFile.id).Nodup :=
      ids_nodup_of_sublist hgsub
        (ids_nodup_of_sublist (eligible_sublist cfg files) hids)
    have hsortnodup : ((m :: rest).map MFile.id).Nodup := by
      rw [← hs]
      exact (((sortByCreated_perm g).map MFile.id).nodup_iff).2 hgnodup
    rw [List.map_cons] at hsortnodup
    have hmnodec : m ∉ groupDecisions cfg g := by
      intro hmem
      unfold groupDecisions at hmem
      rw [hs] at hmem
      have h1 : m ∈ rest := List.mem_of_mem_filter hmem
      exact (List.nodup_cons.1 hsortnodup).1 (List.mem_map_of_mem MFile.id h1)
    have hmid : m.id ∉ dedupTrashIds cfg files := fun hmem =>
      hmnodec ((mem_trashIds_iff_decision hids hg hmg).1 hmem)
    have hmuntrashed : m.trashed = false := by
      have helig : dedupEligible cfg m = true := List.of_mem_filter hme
      simp only [dedupEligible, Bool.and_eq_true, Bool.not_eq_true'] at helig
      exact helig.1.1
    refine ⟨m, hmg, hmin, hmuntrashed, hmid, ?_⟩
    intro f' hf' hfid
    unfold processFolderRun at hf'
    by_cases hd : cfg.DRY_RUN
    · rw [if_pos hd] at hf'
      rw [eq_of_same_id hids hf' hmfiles hfid]
      exact hmuntrashed
    · rw [if_neg hd] at hf'
      simp only [markTrashed, List.mem_map] at hf'
      obtain ⟨f₀, hf₀, rfl⟩ := hf'
      by_cases hc : f₀.id ∈ dedupTrashIds cfg files
      · exfalso
        rw [if_pos (List.elem_iff.2 hc)] at hfid
        have hid0 : f₀.id = m.id := hfid
        exact hmid (hid0 ▸ hc)
      · have hcb : ¬((dedupTrashIds cfg files).contains f₀.id = true) :=
          fun h => hc (List.elem_iff.1 h)
        rw [if_neg hcb] at hfid
        have heq : f₀ = m := eq_of_same_id hids hf₀ hmfiles hfid
        rw [if_neg hcb, heq]
        exact hmuntrashed

/-- Witness for C1 at spec Scenario A (files at 0 h / 1 h / 30 h sharing one
hash, 24-hour window, live mode): file A is the protected earliest member. -/
theorem c1_earliest_member_never_trashed_witness :
    (([fileA, fileB, fileC].map MFile.id).Nodup) ∧
    ("h1", [fileA, fileB, fileC]) ∈ fileGroups liveCfg [fileA, fileB, fileC] ∧
    [fileA, fileB, fileC] ≠ [] ∧
    (∃ m ∈ [fileA, fileB, fileC],
      (∀ x ∈ [fileA, fileB, fileC], m.created ≤ x.created) ∧ m.trashed = false ∧
      m.id ∉ dedupTrashIds liveCfg [fileA, fileB, fileC] ∧
      ∀ f' ∈ processFolderRun liveCfg [fileA, fileB, fileC],
        f'.id = m.id → f'.trashed = false) :=
  ⟨by decide, by decide, by decide,
    c1_earliest_member_never_trashed liveCfg [fileA, fileB, fileC] (by decide)
      "h1" [fileA, fileB, fileC] (by decide) (by decide)⟩

/-! ## Claim C3 -/

/-- **C3 (amended).** For every Phase 2 dedup group of size ≥ 2, sorted
ascending by creation time, a member other than the earliest is trashed iff
the difference between its creation time and the earliest member's creation
time — always measured against the group's earliest member, never against the
previously retained member — is **strictly less than** the configured
duplication window; at a distance of exactly the window value (and beyond)
the member is retained.  (The source comparison is
`duplicate.created - oldest.created < DUPLICATION_WINDOW_MS`: the boundary is
exclusive, unlike the merge-phase comparison of `resolveFileConflict`.) -/
theorem c3_trashed_iff_strictly_within_window (cfg : RuntimeConfig)
    (files : List MFile) (hids : (files.map MFile.id).Nodup)
    (k : String) (g : List MFile) (hg : (k, g) ∈ fileGroups cfg files)
    (m : MFile) (rest : List MFile) (hs : sortByCreated g = m :: rest)
    (f : MFile) (hf : f ∈ rest) :
    f.id ∈ dedupTrashIds cfg files ↔
      f.created - m.created < cfg.DUPLICATION_WINDOW_MS := by
  have hfg : f ∈ g := mem_sortByCreated.1 (by rw [hs]; exact List.mem_cons_of_mem m hf)
  rw [mem_trashIds_iff_decision hids hg hfg]
  unfold groupDecisions
  rw [hs]
  constructor
  · intro h
    have := List.of_mem_filter h
    simpa using this
  · intro h
    exact List.mem_filter.2 ⟨hf, by simpa using h⟩

/-- Witness for the amended C3 at spec Scenario A: file B (1 h after A) is
inside the 24-hour window and is trashed; the iff instantiates concretely. -/
theorem c3_trashed_iff_strictly_within_window_witness :
    (([fileA, fileB, fileC].map MFile.id).Nodup) ∧
    ("h1", [fileA, fileB, fileC]) ∈ fileGroups liveCfg [fileA, fileB, fileC] ∧
    sortByCreated [fileA, fileB, fileC] = fileA :: [fileB, fileC] ∧
    fileB ∈ [fileB, fileC] ∧
    (fileB.id ∈ dedupTrashIds liveCfg [fileA, fileB, fileC] ↔
      fileB.created - fileA.created < liveCfg.DUPLICATION_WINDOW_MS) :=
  ⟨by decide, by decide, by decide, by decide,
    c3_trashed_iff_strictly_within_window liveCfg [fileA, fileB, fileC]
      (by decide) "h1" [fileA, fileB, fileC] (by decide) fileA [fileB, fileC]
      (by decide) fileB (by decide)⟩

/-- **C3 counterexample.** Under the spec's own glossary — the duplication
window is "the **maximum** time distance from a group's earliest member
within which a same-content file is treated as an accidental duplicate", so
"within the window" includes a distance of exactly the window value — the
claim is false: `fileD` is created exactly one window (24 h) after the
earliest member `fileE` of its group, hence within the window, yet its id is
not among the deletion decisions (live mode), because the source compares
with strict `<`. -/
theorem c3_boundary_member_within_window_not_trashed :
    ("h2", [fileE, fileD]) ∈ fileGroups liveCfg [fileE, fileD] ∧
    sortByCreated [fileE, fileD] = fileE :: [fileD] ∧
    fileD ∈ [fileD] ∧
    0 ≤ fileD.created - fileE.created ∧
    fileD.created - fileE.created ≤ liveCfg.DUPLICATION_WINDOW_MS ∧
    liveCfg.DRY_RUN = false ∧
    fileD.id ∉ dedupTrashIds liveCfg [fileE, fileD] := by
  decide

/-! ## Claim C2 -/

/-- A configuration with the file-age filter set to 7 days (in ms). -/
def agedCfg : RuntimeConfig :=
  ⟨[100], 86400000, 604800000, [], [], FolderSortMode.LAST_UPDATED, false, true,
    KeepStrategy.OLDEST, false⟩

/-- A visible hashed file created at epoch 0 — older than `now − 7 days` for
every plausible run time. -/
def oldFile : MFile := ⟨6, "old.pdf", some "h3", 0, 100, 12, false⟩

/-- **C2 (code evaluation).** The per-folder dedup analysis never applies the
configured file-age filter: `processFolder` (processors.ts) reads neither the
clock nor `FILE_AGE_FILTER_MS`, so its statistics, groups, decisions and
resulting file list are invariant under arbitrary changes of
`FILE_AGE_FILTER_MS`; concretely, with a 7-day filter configured, a file
created at epoch 0 is still hashed and grouped (`filesAnalyzed = 1`,
`filesSkipped = 0`, and the file enters a hash group) instead of being
dropped before the content-hash lookup as the spec (and the repository's own
README) prescribe. -/
theorem c2_age_filter_never_applied :
    (∀ (cfg : RuntimeConfig) (v : Int) (files : List MFile),
      processFolderStats { cfg with FILE_AGE_FILTER_MS := v } files
          = processFolderStats cfg files ∧
        dedupTrashIds { cfg with FILE_AGE_FILTER_MS := v } files
          = dedupTrashIds cfg files ∧
        fileGroups { cfg with FILE_AGE_FILTER_MS := v } files
          = fileGroups cfg files) ∧
    (processFolderStats agedCfg [oldFile]).filesAnalyzed = 1 ∧
    (processFolderStats agedCfg [oldFile]).filesSkipped = 0 ∧
    fileGroups agedCfg [oldFile] = [("h3", [oldFile])] := by
  refine ⟨fun cfg v files => ⟨rfl, rfl, rfl⟩, by decide, by decide, by decide⟩

/-! ## Claim C9: idempotence machinery -/

/-- Trashing a set of ids commutes with the eligibility filter: the visible
hashed files of the updated folder are the previously eligible files whose id
was not trashed. -/
theorem eligible_markTrashed (cfg : RuntimeConfig) (ids : List Nat)
    (files : List MFile) :
    eligibleFiles cfg (markTrashed ids files) =
      (eligibleFiles cfg files).filter (fun f => !ids.contains f.id) := by
  induction files with
  | nil => rfl
  | cons f fs ih =>
    have hmark : markTrashed ids (f :: fs) =
        (if ids.contains f.id then { f with trashed := true } else f) ::
          markTrashed ids fs := rfl
    simp only [eligibleFiles] at ih ⊢
    by_cases hc : ids.contains f.id = true
    · have helig : ¬(dedupEligible cfg { f with trashed := true } = true) := by
        intro h
        exact Bool.false_ne_true
          ((rfl : dedupEligible cfg { f with trashed := true } = false).symm.trans h)
      have hpf : ¬((fun x : MFile => !ids.contains x.id) f = true) := by
        show ¬((!ids.contains f.id) = true)
        rw [hc]
        decide
      rw [hmark, if_pos hc, List.filter_cons, if_neg helig, ih]
      by_cases he : dedupEligible cfg f = true
      · rw [List.filter_cons, if_pos he, List.filter_cons, if_neg hpf]
      · rw [List.filter_cons, if_neg he]
    · have hpf : (fun x : MFile => !ids.contains x.id) f = true := by
        show (!ids.contains f.id) = true
        rw [Bool.eq_false_iff.2 hc]
        decide
      rw [hmark, if_neg hc]
      by_cases he : dedupEligible cfg f = true
      · rw [List.filter_cons, if_pos he, List.filter_cons, if_pos he,
          List.filter_cons, if_pos hpf, ih]
      · rw [List.filter_cons, if_neg he, List.filter_cons, if_neg he, ih]

theorem groupOf_filter (p : MFile → Bool) (l : List MFile) (k : String) :
    groupOf (l.filter p) k = (groupOf l k).filter p := by
  unfold groupOf
  exact List.filter_comm _ p l

/-- Dropping exactly the decided duplicates of a group (plus anything else)
leaves a group on which a second decision pass decides nothing. -/
theorem groupDecisions_filter_out_decisions (cfg : RuntimeConfig)
    (g : List MFile) (hgn : (g.map MFile.id).Nodup) (p : MFile → Bool)
    (hp : ∀ x ∈ g, (p x = true ↔ x ∉ groupDecisions cfg g)) :
    groupDecisions cfg (g.filter p) = [] := by
  cases hs₁ : sortByCreated g with
  | nil =>
    have h0 : g = [] := (List.Perm.nil_eq (hs₁ ▸ sortByCreated_perm g)).symm
    subst h0
    rfl
  | cons m rest =>
    have hmg : m ∈ g := mem_sortByCreated.1 (by rw [hs₁]; exact List.mem_cons_self m rest)
    have hmin := sorted_head_min hs₁
    have hdec : groupDecisions cfg g =
        rest.filter (fun f => f.created - m.created < cfg.DUPLICATION_WINDOW_MS) := by
      unfold groupDecisions
      rw [hs₁]
    have hsortnodup : ((m :: rest).map MFile.id).Nodup := by
      rw [← hs₁]
      exact (((sortByCreated_perm g).map MFile.id).nodup_iff).2 hgn
    rw [List.map_cons] at hsortnodup
    have hmnodec : m ∉ groupDecisions cfg g := by
      intro hmem
      rw [hdec] at hmem
      exact (List.nodup_cons.1 hsortnodup).1
        (List.mem_map_of_mem MFile.id (List.mem_of_mem_filter hmem))
    have hpm : p m = true := (hp m hmg).2 hmnodec
    have hmsurv : m ∈ g.filter p := List.mem_filter.2 ⟨hmg, hpm⟩
    cases hs₂ : sortByCreated (g.filter p) with
    | nil =>
      unfold groupDecisions
      rw [hs₂]
    | cons m₂ rest₂ =>
      have hsurvn : ((g.filter p).map MFile.id).Nodup :=
        ids_nodup_of_sublist (List.filter_sublist g) hgn
      have hsortnodup₂ : ((m₂ :: rest₂).map MFile.id).Nodup := by
        rw [← hs₂]
        exact (((sortByCreated_perm (g.filter p)).map MFile.id).nodup_iff).2 hsurvn
      rw [List.map_cons] at hsortnodup₂
      have hm₂surv : m₂ ∈ g.filter p :=
        mem_sortByCreated.1 (by rw [hs₂]; exact List.mem_cons_self m₂ rest₂)
      have hm₂g : m₂ ∈ g := List.mem_of_mem_filter hm₂surv
      have hm₂created : m₂.created = m.created :=
        le_antisymm (sorted_head_min hs₂ m hmsurv) (hmin m₂ hm₂g)
      unfold groupDecisions
      rw [hs₂]
      rw [List.filter_eq_nil_iff]
      intro f hf
      simp only [decide_eq_true_eq]
      intro hlt
      have hfsurv : f ∈ g.filter p :=
        mem_sortByCreated.1 (by rw [hs₂]; exact List.mem_cons_of_mem m₂ hf)
      have hfg : f ∈ g := List.mem_of_mem_filter hfsurv
      have hpf : p f = true := List.of_mem_filter hfsurv
      have hfnodec : f ∉ groupDecisions cfg g := (hp f hfg).1 hpf
      have hfid : f.id ≠ m₂.id := by
        intro h
        exact (List.nodup_cons.1 hsortnodup₂).1
          (h ▸ List.mem_map_of_mem MFile.id hf)
      have hfm : f ∈ m :: rest := by
        rw [← hs₁]
        exact mem_sortByCreated.2 hfg
      rcases List.mem_cons.1 hfm with hfEq | hfrest
      · -- f is (literally) the head m of the first sort; then W > 0 and every
        -- same-time survivor other than f has a decided id — m₂ in particular.
        have hfc : f.created = m.created := by rw [hfEq]
        have hW : 0 < cfg.DUPLICATION_WINDOW_MS := by omega
        have hm₂ne : m₂ ≠ m := by
          intro h
          exact hfid (congrArg MFile.id (hfEq.trans h.symm))
        have hm₂cons : m₂ ∈ m :: rest := by
          rw [← hs₁]
          exact mem_sortByCreated.2 hm₂g
        rcases List.mem_cons.1 hm₂cons with h | hm₂rest
        · exact absurd h hm₂ne
        have hm₂dec : m₂ ∈ groupDecisions cfg g := by
          rw [hdec]
          refine List.mem_filter.2 ⟨hm₂rest, ?_⟩
          simp only [decide_eq_true_eq]
          omega
        have hpm₂ : p m₂ = true := List.of_mem_filter hm₂surv
        exact ((hp m₂ hm₂g).1 hpm₂) hm₂dec
      · -- f is a later member of the first sort; its distance to m is the
        -- distance to m₂, so it would already have been a decision.
        have hfdec : f ∈ groupDecisions cfg g := by
          rw [hdec]
          refine List.mem_filter.2 ⟨hfrest, ?_⟩
          simp only [decide_eq_true_eq]
          omega
        exact hfnodec hfdec

/-! ## Claim C9 -/

/-- **C9.** Phase 2 dedup is idempotent: over a store with unique file ids,
running `processFolder` a second time on the file list produced by a first
run with `DRY_RUN` off yields an empty set of deletion decisions — zero
additional files are trashed (and `filesDeleted` of the second run, which
counts exactly these decisions, is zero). -/
theorem dedupTrashIds_eq_nil {cfg : RuntimeConfig} {F : List MFile}
    (h : ∀ kg ∈ fileGroups cfg F, groupDecisions cfg kg.2 = []) :
    dedupTrashIds cfg F = [] := by
  unfold dedupTrashIds
  rw [List.flatten_eq_nil_iff]
  intro l hl
  rcases List.mem_map.1 hl with ⟨kg, hkg, rfl⟩
  rw [h kg hkg]
  rfl

theorem c9_dedup_idempotent (cfg : RuntimeConfig) (files : List MFile)
    (hdry : cfg.DRY_RUN = false) (hids : (files.map MFile.id).Nodup) :
    dedupTrashIds cfg (processFolderRun cfg files) = [] := by
  have hrun : processFolderRun cfg files =
      markTrashed (dedupTrashIds cfg files) files := by
    simp [processFolderRun, hdry]
  rw [hrun]
  apply dedupTrashIds_eq_nil
  rintro ⟨k, g₂⟩ hkg₂
  show groupDecisions cfg g₂ = []
  obtain ⟨hk₂, hg₂⟩ := mem_fileGroups_iff.1 hkg₂
  have hE₂ : eligibleFiles cfg (markTrashed (dedupTrashIds cfg files) files) =
      (eligibleFiles cfg files).filter
        (fun f => !(dedupTrashIds cfg files).contains f.id) :=
    eligible_markTrashed cfg (dedupTrashIds cfg files) files
  have hg₂' : g₂ = (groupOf (eligibleFiles cfg files) k).filter
      (fun f => !(dedupTrashIds cfg files).contains f.id) := by
    rw [hg₂, hE₂, groupOf_filter]
  have hk₁ : k ∈ groupKeys (eligibleFiles cfg files) := by
    rcases mem_groupKeys.1 hk₂ with ⟨f, hf, hmd5⟩
    rw [hE₂] at hf
    exact mem_groupKeys.2 ⟨f, List.mem_of_mem_filter hf, hmd5⟩
  have hkg₁ : (k, groupOf (eligibleFiles cfg files) k) ∈ fileGroups cfg files :=
    mem_fileGroups_iff.2 ⟨hk₁, rfl⟩
  have hg₁n : ((groupOf (eligibleFiles cfg files) k).map MFile.id).Nodup :=
    ids_nodup_of_sublist (groupOf_sublist _ k)
      (ids_nodup_of_sublist (eligible_sublist cfg files) hids)
  rw [hg₂']
  apply groupDecisions_filter_out_decisions cfg _ hg₁n
  intro x hx
  constructor
  · intro hpx hxdec
    have hmem : x.id ∈ dedupTrashIds cfg files :=
      (mem_trashIds_iff_decision hids hkg₁ hx).2 hxdec
    have hcon : (dedupTrashIds cfg files).contains x.id = true :=
      List.elem_iff.2 hmem
    have hpx' : (!(dedupTrashIds cfg files).contains x.id) = true := hpx
    rw [hcon] at hpx'
    exact absurd hpx' (by decide)
  · intro hxnodec
    show (!(dedupTrashIds cfg files).contains x.id) = true
    have hnm : x.id ∉ dedupTrashIds cfg files := fun h =>
      hxnodec ((mem_trashIds_iff_decision hids hkg₁ hx).1 h)
    have hcf : (dedupTrashIds cfg files).contains x.id = false :=
      Bool.eq_false_iff.2 (fun hcon => hnm (List.elem_iff.1 hcon))
    rw [hcf]
    decide

/-- Witness for C9 at spec Scenario A: after the live run trashes file B, a
second pass decides nothing. -/
theorem c9_dedup_idempotent_witness :
    liveCfg.DRY_RUN = false ∧
    (([fileA, fileB, fileC].map MFile.id).Nodup) ∧
    dedupTrashIds liveCfg (processFolderRun liveCfg [fileA, fileB, fileC]) = [] :=
  ⟨by decide, by decide,
    c9_dedup_idempotent liveCfg [fileA, fileB, fileC] (by decide) (by decide)⟩

/-! ## Phase 1: `folder-merger.ts` -/

/-- The `resolution` field of a `FileConflictResolution`. -/
inductive ConflictResolution
  | KEEP_EXISTING
  | KEEP_INCOMING
  | RENAME_INCOMING
  | ERROR
deriving Repr, DecidableEq

/-- `FileConflictResolution` (folder-merger.ts). -/
structure FileConflictResolution where
  existingFile : MFile
  incomingFile : MFile
  existingMd5 : Option String
  incomingMd5 : Option String
  resolution : ConflictResolution
  reason : String
deriving Repr, DecidableEq

/-- `getMd5Checksum` (folder-merger.ts): Drive-API lookup; a fetch failure and
a missing checksum both come out as `none`. -/
def getMd5Checksum (f : MFile) : Option String := f.md5

/-- `resolveFileConflict` (folder-merger.ts): MD5 comparison plus the
duplication-window rule, mirrored branch by branch. -/
def resolveFileConflict (existingFile incomingFile : MFile)
    (cfg : RuntimeConfig) : FileConflictResolution :=
  let existingMd5 := getMd5Checksum existingFile
  let incomingMd5 := getMd5Checksum incomingFile
  if existingMd5.isNone || incomingMd5.isNone then
    ⟨existingFile, incomingFile, existingMd5, incomingMd5,
      ConflictResolution.RENAME_INCOMING, "no MD5 available"⟩
  else if existingMd5 ≠ incomingMd5 then
    ⟨existingFile, incomingFile, existingMd5, incomingMd5,
      ConflictResolution.RENAME_INCOMING, "different content"⟩
  else
    let existingCreated := existingFile.created
    let incomingCreated := incomingFile.created
    let timeDiff := |incomingCreated - existingCreated|
    if timeDiff > cfg.DUPLICATION_WINDOW_MS then
      ⟨existingFile, incomingFile, existingMd5, incomingMd5,
        ConflictResolution.RENAME_INCOMING, "same MD5 but outside window"⟩
    else if existingCreated ≤ incomingCreated then
      ⟨existingFile, incomingFile, existingMd5, incomingMd5,
        ConflictResolution.KEEP_EXISTING, "same MD5, existing is older"⟩
    else
      ⟨existingFile, incomingFile, existingMd5, incomingMd5,
        ConflictResolution.KEEP_INCOMING, "same MD5, incoming is older"⟩

/-! ### `generateUniqueName` -/

/-- Decimal digit list of a natural number — what the JavaScript template
interpolation of `counter` produces.  Structured with fuel; `natDec` supplies
enough. -/
def natDecAux : Nat → Nat → List Char
  | 0, _ => []
  | fuel + 1, n =>
    if n < 10 then [Char.ofNat (48 + n)]
    else natDecAux fuel (n / 10) ++ [Char.ofNat (48 + n % 10)]

/-- Decimal notation of `n` as characters. -/
def natDec (n : Nat) : List Char := natDecAux (n + 1) n

/-- The candidate name built by the loop body of `generateUniqueName`:
the template string of `name`, `" ("`, the counter, `")"`, `ext`. -/
def candidateName (stem ext : String) (counter : Nat) : String :=
  stem ++ " (" ++ String.mk (natDec counter) ++ ")" ++ ext

/-- The stem/extension split of `generateUniqueName`: split at the last dot
only when `lastDot > 0`; a dotless name, or a name whose only dot is leading,
is all stem with an empty extension. -/
def splitBaseName (baseName : String) : String × String :=
  match lastDotIdx baseName with
  | some i =>
    if 0 < i then
      (String.mk (baseName.data.take i), String.mk (baseName.data.drop i))
    else (baseName, "")
  | none => (baseName, "")

/-- The `while (targetFolder.getFilesByName(newName).hasNext())` loop:
starting at `counter`, return the first candidate that is not among the
target folder's file names.  `fuel` bounds the loop; `targetNames.length + 1`
always suffices (`generateUniqueNameAux_finds_least`). -/
def generateUniqueNameAux (targetNames : List String) (stem ext : String) :
    Nat → Nat → String
  | 0, counter => candidateName stem ext counter
  | fuel + 1, counter =>
    let newName := candidateName stem ext counter
    if targetNames.contains newName then
      generateUniqueNameAux targetNames stem ext fuel (counter + 1)
    else newName

/-- `generateUniqueName(baseName, targetFolder)` (folder-merger.ts), with the
target folder's current file-name listing passed explicitly (the loop itself
performs no mutation, so the listing is stable across its checks). -/
def generateUniqueName (baseName : String) (targetNames : List String) : String :=
  let se := splitBaseName baseName
  generateUniqueNameAux targetNames se.1 se.2 (targetNames.length + 1) 2

/-! ### Store mutation primitives and the operation trace -/

/-- A mutating Store call. -/
inductive StoreOp
  | trashFile (id : Nat)
  | trashFolder (id : Nat)
  | moveFile (id : Nat) (toFolder : Nat)
  | renameFile (id : Nat) (newName : String)
deriving Repr, DecidableEq

/-- `file.setTrashed(b)`. -/
def MStore.setFileTrashed (s : MStore) (fid : Nat) (b : Bool) : MStore :=
  { s with files := s.files.map (fun f => if f.id = fid then { f with trashed := b } else f) }

/-- `file.moveTo(folder)`. -/
def MStore.moveFileTo (s : MStore) (fid : Nat) (toFolder : Nat) : MStore :=
  { s with files := s.files.map (fun f => if f.id = fid then { f with folderId := toFolder } else f) }

/-- `file.setName(n)`. -/
def MStore.renameFileTo (s : MStore) (fid : Nat) (newName : String) : MStore :=
  { s with files := s.files.map (fun f => if f.id = fid then { f with name := newName } else f) }

/-- `folder.setTrashed(b)`. -/
def MStore.setFolderTrashed (s : MStore) (fid : Nat) (b : Bool) : MStore :=
  { s with folders := s.folders.map (fun f => if f.id = fid then { f with trashed := b } else f) }

/-- The per-source-folder counters returned by `mergeFolder`. -/
structure MergeFolderStats where
  filesMoved : Nat
  duplicatesHandled : Nat
  filesRenamed : Nat
deriving Repr, DecidableEq

/-- State threaded through the merge loops: current store, accumulated
counters, and the trace of mutating Store calls issued so far. -/
structure MergeState where
  store : MStore
  stats : MergeFolderStats
  trace : List StoreOp
deriving Repr, DecidableEq

/-- One iteration of the `while (sourceFiles.hasNext())` loop of
`mergeFolder`: skip trashed source files; move when no same-named file exists
in the target; otherwise resolve the conflict against the **first** file of
the target's same-name listing and act on the resolution.  Every mutating
call is suppressed under `DRY_RUN` (the counters are not). -/
def mergeFileStep (cfg : RuntimeConfig) (targetId : Nat) (st : MergeState)
    (sourceFile : MFile) : MergeState :=
  if sourceFile.trashed then st
  else
    match st.store.filesByName targetId sourceFile.name with
    | [] =>
      { store := if cfg.DRY_RUN then st.store else st.store.moveFileTo sourceFile.id targetId
        stats := { st.stats with filesMoved := st.stats.filesMoved + 1 }
        trace := if cfg.DRY_RUN then st.trace
          else st.trace ++ [StoreOp.moveFile sourceFile.id targetId] }
    | existingFile :: _ =>
      let conflict := resolveFileConflict existingFile sourceFile cfg
      match conflict.resolution with
      | ConflictResolution.KEEP_EXISTING =>
        { store := if cfg.DRY_RUN then st.store else st.store.setFileTrashed sourceFile.id true
          stats := { st.stats with duplicatesHandled := st.stats.duplicatesHandled + 1 }
          trace := if cfg.DRY_RUN then st.trace
            else st.trace ++ [StoreOp.trashFile sourceFile.id] }
      | ConflictResolution.KEEP_INCOMING =>
        { store := if cfg.DRY_RUN then st.store
            else (st.store.setFileTrashed existingFile.id true).moveFileTo sourceFile.id targetId
          stats := { st.stats with duplicatesHandled := st.stats.duplicatesHandled + 1 }
          trace := if cfg.DRY_RUN then st.trace
            else st.trace ++ [StoreOp.trashFile existingFile.id,
              StoreOp.moveFile sourceFile.id targetId] }
      | ConflictResolution.RENAME_INCOMING =>
        let newName := generateUniqueName sourceFile.name
          ((st.store.filesIn targetId).map MFile.name)
        { store := if cfg.DRY_RUN then st.store
            else (st.store.renameFileTo sourceFile.id newName).moveFileTo sourceFile.id targetId
          stats := { st.stats with filesRenamed := st.stats.filesRenamed + 1 }
          trace := if cfg.DRY_RUN then st.trace
            else st.trace ++ [StoreOp.renameFile sourceFile.id newName,
              StoreOp.moveFile sourceFile.id targetId] }
      | ConflictResolution.ERROR => st

/-- `mergeFolder(sourceNode, targetNode, config)`: fold the per-file step
over the source folder's file listing (the iterator snapshot taken at entry),
threading the live store through every step. -/
def mergeFolder (cfg : RuntimeConfig) (sourceId targetId : Nat)
    (s : MStore) : MergeState :=
  (s.filesIn sourceId).foldl (mergeFileStep cfg targetId) ⟨s, ⟨0, 0, 0⟩, []⟩

/-! ### Folder scan, grouping, target selection -/

/-- `FolderNode` (folder-merger.ts). -/
structure FolderNode where
  folder : MFolder
  id : Nat
  name : String
  parentId : Nat
  level : Nat
  path : String
deriving Repr, DecidableEq

/-- `countFilesRecursive` (folder-merger.ts): files in the folder plus the
recursive counts of all subfolders; fuel bounds the recursion depth. -/
def countFilesRecursive (s : MStore) : Nat → Nat → Nat
  | 0, _ => 0
  | fuel + 1, folderId =>
    (s.filesIn folderId).length +
      ((s.childFolders folderId).map (fun sub => countFilesRecursive s fuel sub.id)).sum

/-- JavaScript `Array.prototype.reduce` with a binary selector: the
accumulator is replaced only when `repl current acc` holds, so the first
element attaining the optimum wins every tie. -/
def jsReduce {α : Type} (repl : α → α → Bool) (acc : α) : List α → α
  | [] => acc
  | x :: xs => jsReduce repl (if repl x acc then x else acc) xs

/-- `selectTargetFolder(folders, config)`: `reduce` with a strict comparison
per strategy (`none` for an empty group, where the JS `reduce` would throw).
For `MOST_FILES` the counts are materialised first, as in the source. -/
def selectTargetFolder (folders : List FolderNode) (cfg : RuntimeConfig)
    (s : MStore) (fuel : Nat) : Option FolderNode :=
  match folders with
  | [] => none
  | f :: fs =>
    match cfg.MERGE_KEEP_FOLDER_STRATEGY with
    | KeepStrategy.OLDEST =>
      some (jsReduce
        (fun current oldest => decide (current.folder.created < oldest.folder.created)) f fs)
    | KeepStrategy.NEWEST =>
      some (jsReduce
        (fun current newest => decide (newest.folder.lastUpdated < current.folder.lastUpdated)) f fs)
    | KeepStrategy.MOST_FILES =>
      some (jsReduce (fun current best => decide (best.2 < current.2))
        (f, countFilesRecursive s fuel f.id)
        (fs.map (fun n => (n, countFilesRecursive s fuel n.id)))).1

/-- Bucket insertion for `groupDuplicateFolders`: JavaScript `Map` iteration
is in key-insertion order, and each bucket accumulates in push order. -/
def insertFolderGroup (key : Nat × String) (node : FolderNode) :
    List ((Nat × String) × List FolderNode) → List ((Nat × String) × List FolderNode)
  | [] => [(key, [node])]
  | (k, l) :: rest =>
    if k = key then (k, l ++ [node]) :: rest
    else (k, l) :: insertFolderGroup key node rest

/-- `groupDuplicateFolders(folderTree)`: partition by the composite key
`(parentId, lowercase name)` — the model uses the pair where the source uses
the string `` `${parentId}::${name.toLowerCase()}` `` (Drive ids contain no
`"::"`, so the two keys are in bijection). -/
def groupDuplicateFolders (folderTree : List FolderNode) :
    List ((Nat × String) × List FolderNode) :=
  folderTree.foldl
    (fun groups node => insertFolderGroup (node.parentId, lowerStr node.name) node groups) []

/-- `buildFolderTree`'s BFS queue step: pop a folder, list its non-excluded
children as nodes, and enqueue them when `MERGE_FOLDERS_RECURSIVE`.  `fuel`
bounds the number of pops (the source loop runs until the queue empties; any
fuel at least the folder count of an acyclic store is enough). -/
def buildFolderTreeAux (cfg : RuntimeConfig) (s : MStore) :
    Nat → List (MFolder × Nat × String) → List FolderNode → List FolderNode
  | 0, _, acc => acc
  | _ + 1, [], acc => acc
  | fuel + 1, (cur, level, path) :: queue, acc =>
    let children := (s.childFolders cur.id).filter
      (fun sub => !isFolderExcluded s sub cfg.EXCLUDED_FOLDER_IDS s.folders.length)
    let nodes := children.map (fun sub =>
      ({ folder := sub, id := sub.id, name := sub.name, parentId := cur.id,
         level := level + 1, path := path ++ "/" ++ sub.name } : FolderNode))
    let newQueue :=
      if cfg.MERGE_FOLDERS_RECURSIVE then
        queue ++ children.map (fun sub => (sub, level + 1, path ++ "/" ++ sub.name))
      else queue
    buildFolderTreeAux cfg s fuel newQueue (acc ++ nodes)

/-- `buildFolderTree(rootFolder, config)` (folder-merger.ts). -/
def buildFolderTree (rootFolder : MFolder) (cfg : RuntimeConfig) (s : MStore)
    (fuel : Nat) : List FolderNode :=
  buildFolderTreeAux cfg s fuel [(rootFolder, 0, rootFolder.name)] []

/-! ### `mergeDuplicateFolders` -/

/-- `MergeStats` (folder-merger.ts). -/
structure MergeStats where
  foldersScanned : Nat
  duplicateGroupsFound : Nat
  foldersMerged : Nat
  filesMovedDuringMerge : Nat
  filesDuplicatedDuringMerge : Nat
  filesRenamedDuringMerge : Nat
  emptyFoldersDeleted : Nat
deriving Repr, DecidableEq

/-- Result of a merge run: final counters, final store, trace of mutating
calls, and the clock-oracle cursor after the run. -/
structure MergeRunResult where
  stats : MergeStats
  store : MStore
  trace : List StoreOp
  tick : Nat
deriving Repr, DecidableEq

/-- The `for (const sourceFolder of sourceFolders)` loop: merge each source
into the target, then trash the source if (and only if) it is now empty —
a check made against the **live** store, which dry-run leaves untouched. -/
def mergeSourcesLoop (cfg : RuntimeConfig) (targetFolder : FolderNode) :
    List FolderNode → MergeRunResult → MergeRunResult
  | [], r => r
  | src :: rest, r =>
    let ms := mergeFolder cfg src.id targetFolder.id r.store
    let stats1 := { r.stats with
      filesMovedDuringMerge := r.stats.filesMovedDuringMerge + ms.stats.filesMoved
      filesDuplicatedDuringMerge := r.stats.filesDuplicatedDuringMerge + ms.stats.duplicatesHandled
      filesRenamedDuringMerge := r.stats.filesRenamedDuringMerge + ms.stats.filesRenamed }
    if ms.store.isFolderEmptyB src.id then
      mergeSourcesLoop cfg targetFolder rest
        { stats := { stats1 with
            emptyFoldersDeleted := stats1.emptyFoldersDeleted + 1
            foldersMerged := stats1.foldersMerged + 1 }
          store := if cfg.DRY_RUN then ms.store else ms.store.setFolderTrashed src.id true
          trace := if cfg.DRY_RUN then r.trace ++ ms.trace
            else r.trace ++ ms.trace ++ [StoreOp.trashFolder src.id]
          tick := r.tick }
    else
      mergeSourcesLoop cfg targetFolder rest
        { stats := { stats1 with foldersMerged := stats1.foldersMerged + 1 }
          store := ms.store
          trace := r.trace ++ ms.trace
          tick := r.tick }

/-- The `for (const [key, folders] of duplicateGroups)` loop with its
timeout `break` (one clock read per actionable group). -/
def mergeGroupsLoop (cfg : RuntimeConfig) (timeUp : Nat → Bool) (fuel : Nat) :
    List ((Nat × String) × List FolderNode) → MergeRunResult → MergeRunResult
  | [], r => r
  | (_, folders) :: rest, r =>
    if folders.length < 2 then mergeGroupsLoop cfg timeUp fuel rest r
    else if timeUp r.tick then { r with tick := r.tick + 1 }
    else
      match selectTargetFolder folders cfg r.store fuel with
      | none => mergeGroupsLoop cfg timeUp fuel rest { r with tick := r.tick + 1 }
      | some targetFolder =>
        let sourceFolders := folders.filter (fun f => f.id ≠ targetFolder.id)
        mergeGroupsLoop cfg timeUp fuel rest
          (mergeSourcesLoop cfg targetFolder sourceFolders { r with tick := r.tick + 1 })

/-- `mergeDuplicateFolders(rootFolder, config, globalStartTime)`
(folder-merger.ts): scan, group, count actionable groups, and — unless there
are none — process every group. -/
def mergeDuplicateFolders (rootFolder : MFolder) (cfg : RuntimeConfig)
    (s : MStore) (timeUp : Nat → Bool) (tick : Nat) (fuel : Nat) : MergeRunResult :=
  let folderTree := buildFolderTree rootFolder cfg s fuel
  let duplicateGroups := groupDuplicateFolders folderTree
  let dupCount := (duplicateGroups.filter (fun kg => 1 < kg.2.length)).length
  let stats0 : MergeStats :=
    ⟨folderTree.length, dupCount, 0, 0, 0, 0, 0⟩
  if dupCount = 0 then ⟨stats0, s, [], tick⟩
  else mergeGroupsLoop cfg timeUp fuel duplicateGroups ⟨stats0, s, [], tick⟩

/-! ## Entry point: `processRootFolder` (processors.ts) and
`cleanDuplicateAttachments` (main.ts) -/

/-- `ProcessingStats` (processors.ts). -/
structure ProcessingStats where
  foldersProcessed : Nat
  totalFolders : Nat
  filesAnalyzed : Nat
  filesSkipped : Nat
  filesDeleted : Nat
  spaceFreed : Nat
deriving Repr, DecidableEq

/-- `FolderInfo` (processors.ts). -/
structure FolderInfo where
  folder : MFolder
  lastModified : Int
  name : String
deriving Repr, DecidableEq

/-- Store-level effect of one `processFolder` call on folder `fid`: the
statistics, the trashing of every decided duplicate (suppressed under
`DRY_RUN`), and the trace of `setTrashed(true)` calls issued. -/
def processFolderS (cfg : RuntimeConfig) (s : MStore) (fid : Nat) :
    MStore × FolderStats × List StoreOp :=
  let files := s.filesIn fid
  let ids := dedupTrashIds cfg files
  let stats := processFolderStats cfg files
  if cfg.DRY_RUN then (s, stats, [])
  else (ids.foldl (fun acc i => acc.setFileTrashed i true) s, stats,
    ids.map StoreOp.trashFile)

/-- Stable descending insertion by `lastModified` — the
`folders.sort((a, b) => b.lastModified - a.lastModified)` of the source. -/
def insertByLastModifiedDesc (f : FolderInfo) : List FolderInfo → List FolderInfo
  | [] => [f]
  | g :: gs =>
    if g.lastModified ≤ f.lastModified then f :: g :: gs
    else g :: insertByLastModifiedDesc f gs

/-- Stable sort, most recently modified first. -/
def sortFoldersDesc : List FolderInfo → List FolderInfo
  | [] => []
  | f :: fs => insertByLastModifiedDesc f (sortFoldersDesc fs)

/-- One swap of the Fisher-Yates shuffle. -/
def listSwap {α : Type} (l : List α) (i j : Nat) : List α :=
  match l[i]?, l[j]? with
  | some a, some b => (l.set i b).set j a
  | _, _ => l

/-- The Fisher-Yates loop `for (let i = n - 1; i > 0; i--)`, with the n-th
`Math.floor(Math.random() * (i + 1))` modelled by the oracle value
`rand callIdx` clamped into `[0, i]`. -/
def fisherYatesAux (rand : Nat → Nat) :
    Nat → Nat → List FolderInfo → List FolderInfo
  | 0, _, arr => arr
  | i + 1, callIdx, arr =>
    let j := min (rand callIdx) (i + 1)
    fisherYatesAux rand i (callIdx + 1) (listSwap arr (i + 1) j)

/-- The `RANDOM` folder-ordering mode: Fisher-Yates shuffle of the list. -/
def fisherYates (rand : Nat → Nat) (arr : List FolderInfo) : List FolderInfo :=
  match arr.length with
  | 0 => arr
  | n + 1 => fisherYatesAux rand n 0 arr

/-- Result of a root-level (or whole-run) pass of Phase 2. -/
structure CleanResult where
  store : MStore
  stats : ProcessingStats
  trace : List StoreOp
  tick : Nat
deriving Repr, DecidableEq

/-- The `for (const folderInfo of folders)` loop of `processRootFolder`,
with its per-folder timeout check and `break`. -/
def processFoldersLoop (cfg : RuntimeConfig) (timeUp : Nat → Bool) :
    List FolderInfo → CleanResult → CleanResult
  | [], r => r
  | fi :: rest, r =>
    if timeUp r.tick then { r with tick := r.tick + 1 }
    else
      let sft := processFolderS cfg r.store fi.folder.id
      processFoldersLoop cfg timeUp rest
        { store := sft.1
          stats := { r.stats with
            foldersProcessed := r.stats.foldersProcessed + 1
            filesAnalyzed := r.stats.filesAnalyzed + sft.2.1.filesAnalyzed
            filesSkipped := r.stats.filesSkipped + sft.2.1.filesSkipped
            filesDeleted := r.stats.filesDeleted + sft.2.1.filesDeleted
            spaceFreed := r.stats.spaceFreed + sft.2.1.spaceFreed }
          trace := r.trace ++ sft.2.2
          tick := r.tick + 1 }

/-- `processRootFolder(rootFolder, config, globalStartTime)` (processors.ts):
list the root's non-excluded subfolders, order them by the configured mode,
then process until the per-folder timeout check fires. -/
def processRootFolder (root : MFolder) (cfg : RuntimeConfig) (s : MStore)
    (timeUp : Nat → Bool) (rand : Nat → Nat) (tick : Nat) : CleanResult :=
  let infos := ((s.childFolders root.id).filter
      (fun f => !isFolderExcluded s f cfg.EXCLUDED_FOLDER_IDS s.folders.length)).map
    (fun f => ({ folder := f, lastModified := f.lastUpdated, name := f.name } : FolderInfo))
  let sorted :=
    match cfg.FOLDER_SORT_MODE with
    | FolderSortMode.RANDOM => fisherYates rand infos
    | FolderSortMode.LAST_UPDATED => sortFoldersDesc infos
  processFoldersLoop cfg timeUp sorted
    ⟨s, ⟨0, sorted.length, 0, 0, 0, 0⟩, [], tick⟩

/-- Aggregation of root statistics into the run totals (main.ts). -/
def addProcessingStats (a b : ProcessingStats) : ProcessingStats :=
  ⟨a.foldersProcessed + b.foldersProcessed, a.totalFolders + b.totalFolders,
    a.filesAnalyzed + b.filesAnalyzed, a.filesSkipped + b.filesSkipped,
    a.filesDeleted + b.filesDeleted, a.spaceFreed + b.spaceFreed⟩

/-- The `for (const rootFolderId of config.ROOT_FOLDER_IDS)` loop of
`cleanDuplicateAttachments`, with the global timeout check and the
catch-and-continue for an inaccessible root. -/
def cleanRootsLoop (cfg : RuntimeConfig) (timeUp : Nat → Bool)
    (rand : Nat → Nat) : List Nat → CleanResult → CleanResult
  | [], r => r
  | rid :: rest, r =>
    if timeUp r.tick then { r with tick := r.tick + 1 }
    else
      match r.store.folders.find? (fun f => f.id = rid) with
      | none => cleanRootsLoop cfg timeUp rand rest { r with tick := r.tick + 1 }
      | some root =>
        let rr := processRootFolder root cfg r.store timeUp rand (r.tick + 1)
        cleanRootsLoop cfg timeUp rand rest
          ⟨rr.store, addProcessingStats r.stats rr.stats, r.trace ++ rr.trace, rr.tick⟩

/-- `cleanDuplicateAttachments()` (main.ts): the top-level cleaning run over
every configured root.  Note — faithfully to the source — it consists of
Phase 2 only: `mergeDuplicateFolders` is never invoked anywhere in `main.ts`,
whatever `MERGE_DUPLICATE_FOLDERS` says. -/
def cleanDuplicateAttachments (cfg : RuntimeConfig) (s : MStore)
    (timeUp : Nat → Bool) (rand : Nat → Nat) : CleanResult :=
  cleanRootsLoop cfg timeUp rand cfg.ROOT_FOLDER_IDS ⟨s, ⟨0, 0, 0, 0, 0, 0⟩, [], 0⟩

/-! ## Claim C4 -/

/-- **C4.** The merge-time name-collision decision table of
`resolveFileConflict`, together with the actions `mergeFolder` takes on the
KEEP decisions in live mode: absent or differing hashes → rename-incoming;
matching hashes with `|Δt|` beyond the window → rename-incoming; matching
hashes within the window → keep-existing (trash the incoming file, no move)
exactly when the existing file's creation time is ≤ the incoming one's, and
otherwise keep-incoming (trash the existing file, then move the incoming one
under its original name — no rename call). -/
theorem c4_conflict_decision_table (cfg : RuntimeConfig) (e inc : MFile) :
    ((e.md5 = none ∨ inc.md5 = none) →
      (resolveFileConflict e inc cfg).resolution = ConflictResolution.RENAME_INCOMING) ∧
    (e.md5 ≠ none → inc.md5 ≠ none → e.md5 ≠ inc.md5 →
      (resolveFileConflict e inc cfg).resolution = ConflictResolution.RENAME_INCOMING) ∧
    (e.md5 ≠ none → e.md5 = inc.md5 →
      cfg.DUPLICATION_WINDOW_MS < |inc.created - e.created| →
      (resolveFileConflict e inc cfg).resolution = ConflictResolution.RENAME_INCOMING) ∧
    (e.md5 ≠ none → e.md5 = inc.md5 →
      |inc.created - e.created| ≤ cfg.DUPLICATION_WINDOW_MS →
      ((resolveFileConflict e inc cfg).resolution = ConflictResolution.KEEP_EXISTING ↔
        e.created ≤ inc.created) ∧
      ((resolveFileConflict e inc cfg).resolution = ConflictResolution.KEEP_INCOMING ↔
        inc.created < e.created)) ∧
    (∀ (st : MergeState) (targetId : Nat) (t : List MFile),
      cfg.DRY_RUN = false → inc.trashed = false →
      st.store.filesByName targetId inc.name = e :: t →
      ((resolveFileConflict e inc cfg).resolution = ConflictResolution.KEEP_EXISTING →
        mergeFileStep cfg targetId st inc =
          ⟨st.store.setFileTrashed inc.id true,
            { st.stats with duplicatesHandled := st.stats.duplicatesHandled + 1 },
            st.trace ++ [StoreOp.trashFile inc.id]⟩) ∧
      ((resolveFileConflict e inc cfg).resolution = ConflictResolution.KEEP_INCOMING →
        mergeFileStep cfg targetId st inc =
          ⟨(st.store.setFileTrashed e.id true).moveFileTo inc.id targetId,
            { st.stats with duplicatesHandled := st.stats.duplicatesHandled + 1 },
            st.trace ++ [StoreOp.trashFile e.id, StoreOp.moveFile inc.id targetId]⟩)) := by
  refine ⟨?_, ?_, ?_, ?_, ?_⟩
  · rintro (h | h) <;> simp [resolveFileConflict, getMd5Checksum, h]
  · intro he hi hne
    rw [Option.ne_none_iff_exists'] at he hi
    obtain ⟨a, ha⟩ := he
    obtain ⟨b, hb⟩ := hi
    rw [ha, hb] at hne
    simp [resolveFileConflict, getMd5Checksum, ha, hb, hne]
  · intro he heq hw
    rw [Option.ne_none_iff_exists'] at he
    obtain ⟨a, ha⟩ := he
    rw [ha] at heq
    simp [resolveFileConflict, getMd5Checksum, ha, ← heq, hw]
  · intro he heq hw
    rw [Option.ne_none_iff_exists'] at he
    obtain ⟨a, ha⟩ := he
    rw [ha] at heq
    have hw' : ¬(cfg.DUPLICATION_WINDOW_MS < |inc.created - e.created|) := not_lt.2 hw
    by_cases hle : e.created ≤ inc.created
    · simp [resolveFileConflict, getMd5Checksum, ha, ← heq, hw', hle, not_lt.2 hle]
    · simp [resolveFileConflict, getMd5Checksum, ha, ← heq, hw', hle, lt_of_not_le hle]
  · intro st targetId t hdry htr hlist
    constructor
    · intro hres
      simp only [mergeFileStep, htr, hlist, hres, hdry]
      rfl
    · intro hres
      simp only [mergeFileStep, htr, hlist, hres, hdry]
      rfl

/-- Scenario C fixture: the existing target file `invoice.pdf` (hash `H`,
t = 0). -/
def fileInvT : MFile := ⟨30, "invoice.pdf", some "H", 0, 10, 1, false⟩

/-- Scenario C fixture: the incoming source file `invoice.pdf` (hash `H`,
t = 2 h). -/
def fileInvS : MFile := ⟨31, "invoice.pdf", some "H", 7200000, 10, 2, false⟩

/-- Witness for C4 at spec Scenario C: same hash, 2 h apart with a 24 h
window, existing older → keep-existing, not keep-incoming. -/
theorem c4_conflict_decision_table_witness :
    fileInvT.md5 ≠ none ∧ fileInvT.md5 = fileInvS.md5 ∧
    |fileInvS.created - fileInvT.created| ≤ liveCfg.DUPLICATION_WINDOW_MS ∧
    (((resolveFileConflict fileInvT fileInvS liveCfg).resolution =
        ConflictResolution.KEEP_EXISTING ↔ fileInvT.created ≤ fileInvS.created) ∧
      ((resolveFileConflict fileInvT fileInvS liveCfg).resolution =
        ConflictResolution.KEEP_INCOMING ↔ fileInvS.created < fileInvT.created)) :=
  ⟨by decide, by decide, by decide,
    (c4_conflict_decision_table liveCfg fileInvT fileInvS).2.2.2.1
      (by decide) (by decide) (by decide)⟩

/-! ## Claim C10 -/

theorem mem_setFileTrashed_of_ne {s : MStore} {a : Nat} {b : Bool} {g : MFile}
    (h : g ∈ s.files) (hne : g.id ≠ a) : g ∈ (s.setFileTrashed a b).files := by
  unfold MStore.setFileTrashed
  simp only [List.mem_map]
  exact ⟨g, h, by rw [if_neg hne]⟩

theorem mem_moveFileTo_of_ne {s : MStore} {a dst : Nat} {g : MFile}
    (h : g ∈ s.files) (hne : g.id ≠ a) : g ∈ (s.moveFileTo a dst).files := by
  unfold MStore.moveFileTo
  simp only [List.mem_map]
  exact ⟨g, h, by rw [if_neg hne]⟩

theorem mem_renameFileTo_of_ne {s : MStore} {a : Nat} {n : String} {g : MFile}
    (h : g ∈ s.files) (hne : g.id ≠ a) : g ∈ (s.renameFileTo a n).files := by
  unfold MStore.renameFileTo
  simp only [List.mem_map]
  exact ⟨g, h, by rw [if_neg hne]⟩

theorem filesByName_sublist (s : MStore) (fid : Nat) (n : String) :
    List.Sublist (s.filesByName fid n) s.files :=
  (List.filter_sublist _).trans (List.filter_sublist _)

/-- **C10.** During a merge name collision, when the target folder holds two
or more files with the colliding name, the step compares the incoming file
against only the **first** same-named target file of the listing: (a) the
branch taken — visible in the returned counters — is the same for any other
store whose listing has the same head, whatever same-named files follow; and
(b) every same-named target file after the first is carried over to the
resulting store untouched (in particular it is never trashed). -/
theorem c10_conflict_uses_first_listed_only (cfg : RuntimeConfig)
    (targetId : Nat) (st : MergeState) (sourceFile : MFile)
    (hsrc : sourceFile.trashed = false)
    (hids : (st.store.files.map MFile.id).Nodup)
    (hsf : sourceFile ∈ st.store.files)
    (hsfolder : sourceFile.folderId ≠ targetId)
    (e : MFile) (t : List MFile)
    (hlist : st.store.filesByName targetId sourceFile.name = e :: t) :
    (∀ (s' : MStore) (t' : List MFile) (stats : MergeFolderStats)
        (tr : List StoreOp),
      s'.filesByName targetId sourceFile.name = e :: t' →
      (mergeFileStep cfg targetId ⟨s', stats, tr⟩ sourceFile).stats =
        (mergeFileStep cfg targetId ⟨st.store, stats, tr⟩ sourceFile).stats) ∧
    (∀ g ∈ t, g ∈ (mergeFileStep cfg targetId st sourceFile).store.files) := by
  constructor
  · intro s' t' stats tr hlist'
    simp only [mergeFileStep, hsrc, hlist, hlist']
    cases hres : (resolveFileConflict e sourceFile cfg).resolution <;> simp [hres]
  · intro g hg
    have hlistnodup : ((e :: t).map MFile.id).Nodup := by
      rw [← hlist]
      exact ids_nodup_of_sublist (filesByName_sublist st.store targetId sourceFile.name) hids
    rw [List.map_cons] at hlistnodup
    have hgmem : g ∈ st.store.files :=
      (filesByName_sublist st.store targetId sourceFile.name).subset
        (by rw [hlist]; exact List.mem_cons_of_mem e hg)
    have hge : g.id ≠ e.id := by
      intro h
      exact (List.nodup_cons.1 hlistnodup).1 (h ▸ List.mem_map_of_mem MFile.id hg)
    have hgt : g.folderId = targetId := by
      have : g ∈ st.store.filesByName targetId sourceFile.name := by
        rw [hlist]; exact List.mem_cons_of_mem e hg
      have h2 : g ∈ st.store.filesIn targetId := List.mem_of_mem_filter this
      have h3 := List.of_mem_filter h2
      simpa using h3
    have hgs : g.id ≠ sourceFile.id := by
      intro h
      have : g = sourceFile := eq_of_same_id hids hgmem hsf h
      rw [this] at hgt
      exact hsfolder hgt
    simp only [mergeFileStep, hsrc, hlist]
    cases hres : (resolveFileConflict e sourceFile cfg).resolution
    case KEEP_EXISTING =>
      by_cases hdry : cfg.DRY_RUN = true
      · simp only [hdry, if_true]
        exact hgmem
      · simp only [hdry, if_false, Bool.false_eq_true]
        exact mem_setFileTrashed_of_ne hgmem hgs
    case KEEP_INCOMING =>
      by_cases hdry : cfg.DRY_RUN = true
      · simp only [hdry, if_true]
        exact hgmem
      · simp only [hdry, if_false, Bool.false_eq_true]
        exact mem_moveFileTo_of_ne (mem_setFileTrashed_of_ne hgmem hge) hgs
    case RENAME_INCOMING =>
      by_cases hdry : cfg.DRY_RUN = true
      · simp only [hdry, if_true]
        exact hgmem
      · simp only [hdry, if_false, Bool.false_eq_true]
        exact mem_moveFileTo_of_ne (mem_renameFileTo_of_ne hgmem hgs) hgs
    case ERROR => exact hgmem

/-- Collision fixture: first same-named file in the target folder. -/
def fileX1 : MFile := ⟨40, "x.pdf", some "h4", 0, 10, 1, false⟩

/-- Collision fixture: second same-named file in the target folder. -/
def fileX2 : MFile := ⟨41, "x.pdf", some "h5", 500, 10, 1, false⟩

/-- Collision fixture: the incoming source file. -/
def fileXS : MFile := ⟨42, "x.pdf", some "h6", 900, 10, 2, false⟩

/-- Collision fixture: a store whose target folder 1 holds two files named
`x.pdf`. -/
def c10state : MergeState := ⟨⟨[], [fileX1, fileX2, fileXS]⟩, ⟨0, 0, 0⟩, []⟩

/-- Witness for C10: with two same-named target files, only the first is
compared, and the second survives the step untouched. -/
theorem c10_conflict_uses_first_listed_only_witness :
    fileXS.trashed = false ∧
    ((c10state.store.files.map MFile.id).Nodup) ∧
    fileXS ∈ c10state.store.files ∧
    fileXS.folderId ≠ 1 ∧
    c10state.store.filesByName 1 fileXS.name = fileX1 :: [fileX2] ∧
    ((∀ (s' : MStore) (t' : List MFile) (stats : MergeFolderStats)
        (tr : List StoreOp),
      s'.filesByName 1 fileXS.name = fileX1 :: t' →
      (mergeFileStep liveCfg 1 ⟨s', stats, tr⟩ fileXS).stats =
        (mergeFileStep liveCfg 1 ⟨c10state.store, stats, tr⟩ fileXS).stats) ∧
    (∀ g ∈ [fileX2], g ∈ (mergeFileStep liveCfg 1 c10state fileXS).store.files)) :=
  ⟨by decide, by decide, by decide, by decide, by decide,
    c10_conflict_uses_first_listed_only liveCfg 1 c10state fileXS (by decide)
      (by decide) (by decide) (by decide) fileX1 [fileX2] (by decide)⟩

/-! ## Claim C6: `reduce` keeps the first optimum -/

/-- JS `reduce` with strict "replace when smaller": the result is the first
element of `a :: l` attaining the minimum key — everything before it is
strictly larger, everything after it at least as large. -/
theorem jsReduce_min_spec {α β : Type} [LinearOrder β] (key : α → β)
    (l : List α) :
    ∀ (a : α) {r : α},
      jsReduce (fun x acc => decide (key x < key acc)) a l = r →
      ∃ pre post, a :: l = pre ++ r :: post ∧
        (∀ x ∈ pre, key r < key x) ∧ (∀ x ∈ post, key r ≤ key x) := by
  induction l with
  | nil =>
    intro a r hr
    obtain rfl : a = r := hr
    exact ⟨[], [], rfl, by simp, by simp⟩
  | cons x xs ih =>
    intro a r hr
    by_cases h : key x < key a
    · have hr' : jsReduce (fun x acc => decide (key x < key acc)) x xs = r := by
        simpa [jsReduce, h] using hr
      obtain ⟨pre, post, hsplit, hpre, hpost⟩ := ih x hr'
      refine ⟨a :: pre, post, ?_, ?_, hpost⟩
      · rw [List.cons_append, ← hsplit]
      · intro y hy
        rcases List.mem_cons.1 hy with rfl | hy
        · have hrx : key r ≤ key x := by
            cases pre with
            | nil =>
              simp only [List.nil_append] at hsplit
              injection hsplit with h1 h2
              rw [h1]
            | cons b pre₂ =>
              rw [List.cons_append] at hsplit
              injection hsplit with h1 h2
              rw [h1]
              exact le_of_lt (hpre b (List.mem_cons_self b pre₂))
          exact lt_of_le_of_lt hrx h
        · exact hpre y hy
    · have hr' : jsReduce (fun x acc => decide (key x < key acc)) a xs = r := by
        simpa [jsReduce, h] using hr
      obtain ⟨pre, post, hsplit, hpre, hpost⟩ := ih a hr'
      cases pre with
      | nil =>
        simp only [List.nil_append] at hsplit
        injection hsplit with h1 h2
        refine ⟨[], x :: xs, ?_, by simp, ?_⟩
        · rw [List.nil_append, ← h1]
        · intro y hy
          rcases List.mem_cons.1 hy with rfl | hy
          · rw [← h1]
            exact le_of_not_lt h
          · exact hpost y (h2 ▸ hy)
      | cons b pre₂ =>
        rw [List.cons_append] at hsplit
        injection hsplit with h1 h2
        refine ⟨a :: x :: pre₂, post, ?_, ?_, hpost⟩
        · rw [List.cons_append, List.cons_append, ← h2]
        · intro y hy
          have hra : key r < key a := by
            rw [h1]
            exact hpre b (List.mem_cons_self b pre₂)
          rcases List.mem_cons.1 hy with rfl | hy
          · exact hra
          · rcases List.mem_cons.1 hy with rfl | hy
            · exact lt_of_lt_of_le hra (le_of_not_lt h)
            · exact hpre y (List.mem_cons_of_mem b hy)

/-- JS `reduce` with strict "replace when greater": the result is the first
element of `a :: l` attaining the maximum key. -/
theorem jsReduce_max_spec {α β : Type} [LinearOrder β] (key : α → β)
    (l : List α) :
    ∀ (a : α) {r : α},
      jsReduce (fun x acc => decide (key acc < key x)) a l = r →
      ∃ pre post, a :: l = pre ++ r :: post ∧
        (∀ x ∈ pre, key x < key r) ∧ (∀ x ∈ post, key x ≤ key r) := by
  induction l with
  | nil =>
    intro a r hr
    obtain rfl : a = r := hr
    exact ⟨[], [], rfl, by simp, by simp⟩
  | cons x xs ih =>
    intro a r hr
    by_cases h : key a < key x
    · have hr' : jsReduce (fun x acc => decide (key acc < key x)) x xs = r := by
        simpa [jsReduce, h] using hr
      obtain ⟨pre, post, hsplit, hpre, hpost⟩ := ih x hr'
      refine ⟨a :: pre, post, ?_, ?_, hpost⟩
      · rw [List.cons_append, ← hsplit]
      · intro y hy
        rcases List.mem_cons.1 hy with rfl | hy
        · have hrx : key x ≤ key r := by
            cases pre with
            | nil =>
              simp only [List.nil_append] at hsplit
              injection hsplit with h1 h2
              rw [h1]
            | cons b pre₂ =>
              rw [List.cons_append] at hsplit
              injection hsplit with h1 h2
              rw [h1]
              exact le_of_lt (hpre b (List.mem_cons_self b pre₂))
          exact lt_of_lt_of_le h hrx
        · exact hpre y hy
    · have hr' : jsReduce (fun x acc => decide (key acc < key x)) a xs = r := by
        simpa [jsReduce, h] using hr
      obtain ⟨pre, post, hsplit, hpre, hpost⟩ := ih a hr'
      cases pre with
      | nil =>
        simp only [List.nil_append] at hsplit
        injection hsplit with h1 h2
        refine ⟨[], x :: xs, ?_, by simp, ?_⟩
        · rw [List.nil_append, ← h1]
        · intro y hy
          rcases List.mem_cons.1 hy with rfl | hy
          · rw [← h1]
            exact le_of_not_lt h
          · exact hpost y (h2 ▸ hy)
      | cons b pre₂ =>
        rw [List.cons_append] at hsplit
        injection hsplit with h1 h2
        refine ⟨a :: x :: pre₂, post, ?_, ?_, hpost⟩
        · rw [List.cons_append, List.cons_append, ← h2]
        · intro y hy
          have hra : key a < key r := by
            rw [h1]
            exact hpre b (List.mem_cons_self b pre₂)
          rcases List.mem_cons.1 hy with rfl | hy
          · exact hra
          · rcases List.mem_cons.1 hy with rfl | hy
            · exact lt_of_le_of_lt (le_of_not_lt h) hra
            · exact hpre y (List.mem_cons_of_mem b hy)

/-- `reduce` over a mapped list with a compatible selector equals the map of
the `reduce` — the `MOST_FILES` counts-then-reduce shape. -/
theorem jsReduce_map {α β : Type} (g : α → β) (repl' : β → β → Bool)
    (repl : α → α → Bool) (h : ∀ x y, repl' (g x) (g y) = repl x y)
    (l : List α) : ∀ (a : α),
    jsReduce repl' (g a) (l.map g) = g (jsReduce repl a l) := by
  induction l with
  | nil => intro a; rfl
  | cons x xs ih =>
    intro a
    simp only [List.map_cons, jsReduce]
    rw [h x a]
    by_cases hc : repl x a = true
    · rw [if_pos hc, if_pos hc, ih x]
    · rw [if_neg hc, if_neg hc, ih a]

/-- **C6.** `selectTargetFolder` breaks ties by input order for every
strategy: the selected folder is the first member of the input sequence
attaining the optimal strategy-relevant value (minimum creation timestamp for
OLDEST, maximum last-modified timestamp for NEWEST, maximum recursive file
count for MOST_FILES) — every earlier member is strictly worse, every later
member no better.  In particular, among two or more members with identical
optimal values the first in input order is selected. -/
theorem c6_select_target_first_wins_ties (cfg : RuntimeConfig) (s : MStore)
    (fuel : Nat) (f : FolderNode) (fs : List FolderNode) (r : FolderNode)
    (hr : selectTargetFolder (f :: fs) cfg s fuel = some r) :
    (cfg.MERGE_KEEP_FOLDER_STRATEGY = KeepStrategy.OLDEST →
      ∃ pre post, f :: fs = pre ++ r :: post ∧
        (∀ x ∈ pre, r.folder.created < x.folder.created) ∧
        (∀ x ∈ post, r.folder.created ≤ x.folder.created)) ∧
    (cfg.MERGE_KEEP_FOLDER_STRATEGY = KeepStrategy.NEWEST →
      ∃ pre post, f :: fs = pre ++ r :: post ∧
        (∀ x ∈ pre, x.folder.lastUpdated < r.folder.lastUpdated) ∧
        (∀ x ∈ post, x.folder.lastUpdated ≤ r.folder.lastUpdated)) ∧
    (cfg.MERGE_KEEP_FOLDER_STRATEGY = KeepStrategy.MOST_FILES →
      ∃ pre post, f :: fs = pre ++ r :: post ∧
        (∀ x ∈ pre,
          countFilesRecursive s fuel x.id < countFilesRecursive s fuel r.id) ∧
        (∀ x ∈ post,
          countFilesRecursive s fuel x.id ≤ countFilesRecursive s fuel r.id)) := by
  refine ⟨?_, ?_, ?_⟩
  · intro hstrat
    simp only [selectTargetFolder, hstrat] at hr
    exact jsReduce_min_spec (fun n : FolderNode => n.folder.created) fs f
      (Option.some.inj hr)
  · intro hstrat
    simp only [selectTargetFolder, hstrat] at hr
    exact jsReduce_max_spec (fun n : FolderNode => n.folder.lastUpdated) fs f
      (Option.some.inj hr)
  · intro hstrat
    simp only [selectTargetFolder, hstrat] at hr
    have hval := Option.some.inj hr
    have hX : jsReduce (fun current best => decide (best.2 < current.2))
        (f, countFilesRecursive s fuel f.id)
        (fs.map (fun n => (n, countFilesRecursive s fuel n.id))) =
        (fun n : FolderNode => (n, countFilesRecursive s fuel n.id))
          (jsReduce (fun x acc =>
            decide (countFilesRecursive s fuel acc.id <
              countFilesRecursive s fuel x.id)) f fs) :=
      jsReduce_map (fun n : FolderNode => (n, countFilesRecursive s fuel n.id))
        (fun current best => decide (best.2 < current.2))
        (fun x acc => decide (countFilesRecursive s fuel acc.id <
          countFilesRecursive s fuel x.id))
        (fun x y => rfl) fs f
    rw [hX] at hval
    have hval' : jsReduce (fun x acc =>
        decide (countFilesRecursive s fuel acc.id <
          countFilesRecursive s fuel x.id)) f fs = r := hval
    exact jsReduce_max_spec
      (fun n : FolderNode => countFilesRecursive s fuel n.id) fs f hval'

/-- Tie fixture: first of two duplicate folders with equal timestamps. -/
def nodeA : FolderNode :=
  ⟨⟨7, "acme", some 100, 500, 900, false⟩, 7, "acme", 100, 1, "root/acme"⟩

/-- Tie fixture: second of two duplicate folders with equal timestamps. -/
def nodeB : FolderNode :=
  ⟨⟨8, "acme", some 100, 500, 900, false⟩, 8, "acme", 100, 1, "root/acme"⟩

/-- Witness for C6: two folders with identical creation timestamps under
OLDEST — the first in input order is selected. -/
theorem c6_select_target_first_wins_ties_witness :
    selectTargetFolder [nodeA, nodeB] liveCfg ⟨[], []⟩ 0 = some nodeA ∧
    nodeA.folder.created = nodeB.folder.created ∧
    (liveCfg.MERGE_KEEP_FOLDER_STRATEGY = KeepStrategy.OLDEST →
      ∃ pre post, [nodeA, nodeB] = pre ++ nodeA :: post ∧
        (∀ x ∈ pre, nodeA.folder.created < x.folder.created) ∧
        (∀ x ∈ post, nodeA.folder.created ≤ x.folder.created)) :=
  ⟨by decide, by decide,
    (c6_select_target_first_wins_ties liveCfg ⟨[], []⟩ 0 nodeA [nodeB] nodeA
      (by decide)).1⟩

/-! ## Claim C7: unique-name generation -/

/-- Decimal value of a digit string (left fold), used to certify `natDec`. -/
def decValue (l : List Char) : Nat :=
  l.foldl (fun a c => a * 10 + (c.toNat - 48)) 0

theorem string_mk_data (l : List Char) : (String.mk l).data = l := rfl

theorem digit_char_toNat {d : Nat} (hd : d < 10) :
    (Char.ofNat (48 + d)).toNat = 48 + d := by
  interval_cases d <;> decide

theorem decValue_append_digit (l : List Char) (c : Char) :
    decValue (l ++ [c]) = decValue l * 10 + (c.toNat - 48) := by
  unfold decValue
  rw [List.foldl_append]
  rfl

theorem decValue_natDecAux :
    ∀ (fuel n : Nat), n < fuel → decValue (natDecAux fuel n) = n := by
  intro fuel
  induction fuel with
  | zero => intro n h; omega
  | succ fuel ih =>
    intro n h
    by_cases h10 : n < 10
    · simp only [natDecAux, if_pos h10]
      have hc := digit_char_toNat h10
      simp [decValue, hc]
    · have hge : 10 ≤ n := le_of_not_lt h10
      simp only [natDecAux, if_neg h10]
      rw [decValue_append_digit]
      have hdiv : n / 10 < fuel := by
        have h1 : n / 10 < n := Nat.div_lt_self (by omega) (by omega)
        omega
      rw [ih (n / 10) hdiv]
      rw [digit_char_toNat (Nat.mod_lt n (by omega))]
      omega

theorem decValue_natDec (n : Nat) : decValue (natDec n) = n :=
  decValue_natDecAux (n + 1) n (Nat.lt_succ_self n)

theorem natDec_injective : Function.Injective natDec := by
  intro a b h
  have h2 := congrArg decValue h
  rwa [decValue_natDec, decValue_natDec] at h2

/-- For a fixed stem and extension, distinct counters give distinct
candidate names. -/
theorem candidateName_inj (stem ext : String) {j k : Nat}
    (h : candidateName stem ext j = candidateName stem ext k) : j = k := by
  have hd := congrArg String.data h
  simp only [candidateName, String.data_append, string_mk_data,
    List.append_assoc] at hd
  have h1 := List.append_cancel_left hd
  have h2 := List.append_cancel_left h1
  have h3 := List.append_cancel_right h2
  exact natDec_injective h3

/-- Pigeonhole: among the first `names.length + 1` candidates, at least one
is not in the target listing. -/
theorem exists_fresh_candidate (stem ext : String) (names : List String) :
    ∃ i, i ≤ names.length ∧ candidateName stem ext (2 + i) ∉ names := by
  by_contra hcon
  push_neg at hcon
  have hinj : Function.Injective (fun i => candidateName stem ext (2 + i)) := by
    intro a b h
    have := candidateName_inj stem ext h
    omega
  have hnodup : ((List.range (names.length + 1)).map
      (fun i => candidateName stem ext (2 + i))).Nodup :=
    List.Nodup.map hinj (List.nodup_range _)
  have hsub : ((List.range (names.length + 1)).map
      (fun i => candidateName stem ext (2 + i))) ⊆ names := by
    intro x hx
    rcases List.mem_map.1 hx with ⟨i, hi, rfl⟩
    exact hcon i (by have := List.mem_range.1 hi; omega)
  have hlen := (List.subperm_of_subset hnodup hsub).length_le
  rw [List.length_map, List.length_range] at hlen
  omega

/-- The candidate loop returns the first free candidate, provided some
candidate within the fuel budget is free. -/
theorem generateUniqueNameAux_least (names : List String) (stem ext : String) :
    ∀ (fuel counter : Nat),
      (∃ i, i ≤ fuel ∧ candidateName stem ext (counter + i) ∉ names) →
      ∃ i, i ≤ fuel ∧ candidateName stem ext (counter + i) ∉ names ∧
        (∀ j, j < i → candidateName stem ext (counter + j) ∈ names) ∧
        generateUniqueNameAux names stem ext fuel counter =
          candidateName stem ext (counter + i) := by
  intro fuel
  induction fuel with
  | zero =>
    rintro counter ⟨i, hi, hnot⟩
    obtain rfl : i = 0 := by omega
    exact ⟨0, le_refl 0, hnot, fun j hj => absurd hj (Nat.not_lt_zero j), by
      simp [generateUniqueNameAux]⟩
  | succ fuel ih =>
    intro counter hex
    by_cases hc : names.contains (candidateName stem ext counter) = true
    · have hmem : candidateName stem ext counter ∈ names := List.elem_iff.1 hc
      obtain ⟨i, hi, hnot⟩ := hex
      have hipos : i ≠ 0 := by
        intro h0
        rw [h0, Nat.add_zero] at hnot
        exact hnot hmem
      obtain ⟨i', rfl⟩ : ∃ i', i = i' + 1 := ⟨i - 1, by omega⟩
      have hex' : ∃ i2, i2 ≤ fuel ∧
          candidateName stem ext (counter + 1 + i2) ∉ names :=
        ⟨i', by omega, by
          rw [show counter + 1 + i' = counter + (i' + 1) from by omega]
          exact hnot⟩
      obtain ⟨i2, hi2, hnot2, hmin2, hres2⟩ := ih (counter + 1) hex'
      refine ⟨i2 + 1, by omega, ?_, ?_, ?_⟩
      · rw [show counter + (i2 + 1) = counter + 1 + i2 from by omega]
        exact hnot2
      · intro j hj
        cases j with
        | zero => rw [Nat.add_zero]; exact hmem
        | succ j' =>
          rw [show counter + (j' + 1) = counter + 1 + j' from by omega]
          exact hmin2 j' (by omega)
      · simp only [generateUniqueNameAux, if_pos hc]
        rw [hres2, show counter + 1 + i2 = counter + (i2 + 1) from by omega]
    · have hnot : candidateName stem ext counter ∉ names :=
        fun hm => hc (List.elem_iff.2 hm)
      refine ⟨0, Nat.zero_le _, by rw [Nat.add_zero]; exact hnot,
        fun j hj => absurd hj (Nat.not_lt_zero j), ?_⟩
      simp only [generateUniqueNameAux, if_neg hc]
      rw [Nat.add_zero]

/-- **C7 (amended).** The rename-incoming naming rule splits the base name
into stem and extension at the last dot **when that dot is at index ≥ 1** (a
dotless name, or one whose only dot is its leading character, stays whole as
the stem — the source's `lastDot > 0` guard); it then tries the candidates
`stem (2)ext`, `stem (3)ext`, … against the target's current listing and
returns the first candidate not present.  With the "(2)"–"(4)" variants
already present, it returns the "(5)" variant. -/
theorem c7_unique_name_first_free_candidate (baseName : String)
    (names : List String) :
    (∃ K, 2 ≤ K ∧
      candidateName (splitBaseName baseName).1 (splitBaseName baseName).2 K ∉ names ∧
      (∀ j, 2 ≤ j → j < K →
        candidateName (splitBaseName baseName).1 (splitBaseName baseName).2 j ∈ names) ∧
      generateUniqueName baseName names =
        candidateName (splitBaseName baseName).1 (splitBaseName baseName).2 K) ∧
    splitBaseName "report.pdf" = ("report", ".pdf") ∧
    generateUniqueName "report.pdf"
      ["report.pdf", "report (2).pdf", "report (3).pdf", "report (4).pdf"] =
      "report (5).pdf" := by
  refine ⟨?_, by decide, by decide⟩
  obtain ⟨i, hi, hnot⟩ := exists_fresh_candidate (splitBaseName baseName).1
    (splitBaseName baseName).2 names
  have hex : ∃ i2, i2 ≤ names.length + 1 ∧
      candidateName (splitBaseName baseName).1 (splitBaseName baseName).2
        (2 + i2) ∉ names := ⟨i, by omega, hnot⟩
  obtain ⟨i2, hi2, hnot2, hmin2, hres2⟩ := generateUniqueNameAux_least names
    (splitBaseName baseName).1 (splitBaseName baseName).2 (names.length + 1) 2 hex
  refine ⟨2 + i2, by omega, hnot2, ?_, ?_⟩
  · intro j h2j hjK
    have hj := hmin2 (j - 2) (by omega)
    rw [show 2 + (j - 2) = j from by omega] at hj
    exact hj
  · exact hres2

/-- The naming rule exactly as the claim words it: split at the last dot
unconditionally, also when that dot is the leading character. -/
def splitBaseNameSpec (baseName : String) : String × String :=
  match lastDotIdx baseName with
  | some i =>
    (String.mk (baseName.data.take i), String.mk (baseName.data.drop i))
  | none => (baseName, "")

/-- Unique-name generation under the claim's unconditional split. -/
def generateUniqueNameSpec (baseName : String) (targetNames : List String) :
    String :=
  let se := splitBaseNameSpec baseName
  generateUniqueNameAux targetNames se.1 se.2 (targetNames.length + 1) 2

/-- **C7 counterexample.** For a base name whose only dot is its leading
character, the claim's rule ("split at the last dot", so stem `""` and
extension `".txt"`) yields `" (3).txt"`, but the source's `lastDot > 0`
guard keeps the name whole and yields `".txt (2)"`: the two rules disagree,
so the claim as stated is false at `".txt"`. -/
theorem c7_leading_dot_splits_differently :
    splitBaseNameSpec ".txt" = ("", ".txt") ∧
    splitBaseName ".txt" = (".txt", "") ∧
    generateUniqueNameSpec ".txt" [".txt", " (2).txt"] = " (3).txt" ∧
    generateUniqueName ".txt" [".txt", " (2).txt"] = ".txt (2)" ∧
    generateUniqueName ".txt" [".txt", " (2).txt"] ≠
      generateUniqueNameSpec ".txt" [".txt", " (2).txt"] := by
  decide

/-! ## Claim C8: dry-run -/

theorem mergeFileStep_dry {cfg : RuntimeConfig} (h : cfg.DRY_RUN = true)
    (targetId : Nat) (st : MergeState) (f : MFile) :
    (mergeFileStep cfg targetId st f).store = st.store ∧
    (mergeFileStep cfg targetId st f).trace = st.trace := by
  unfold mergeFileStep
  by_cases htr : f.trashed = true
  · simp [htr]
  · simp only [htr]
    cases st.store.filesByName targetId f.name with
    | nil => simp [h]
    | cons e t =>
      cases hres : (resolveFileConflict e f cfg).resolution <;> simp [hres, h]

theorem mergeFoldSteps_dry {cfg : RuntimeConfig} (h : cfg.DRY_RUN = true)
    (targetId : Nat) :
    ∀ (l : List MFile) (st : MergeState),
      (l.foldl (mergeFileStep cfg targetId) st).store = st.store ∧
      (l.foldl (mergeFileStep cfg targetId) st).trace = st.trace := by
  intro l
  induction l with
  | nil => intro st; exact ⟨rfl, rfl⟩
  | cons f fs ih =>
    intro st
    obtain ⟨h1, h2⟩ := ih (mergeFileStep cfg targetId st f)
    obtain ⟨h3, h4⟩ := mergeFileStep_dry h targetId st f
    exact ⟨by rw [List.foldl_cons, h1, h3], by rw [List.foldl_cons, h2, h4]⟩

theorem mergeFolder_dry {cfg : RuntimeConfig} (h : cfg.DRY_RUN = true)
    (sourceId targetId : Nat) (s : MStore) :
    (mergeFolder cfg sourceId targetId s).store = s ∧
    (mergeFolder cfg sourceId targetId s).trace = [] :=
  mergeFoldSteps_dry h targetId (s.filesIn sourceId) ⟨s, ⟨0, 0, 0⟩, []⟩

theorem mergeSourcesLoop_dry {cfg : RuntimeConfig} (h : cfg.DRY_RUN = true)
    (targetFolder : FolderNode) :
    ∀ (l : List FolderNode) (r : MergeRunResult),
      (mergeSourcesLoop cfg targetFolder l r).store = r.store ∧
      (mergeSourcesLoop cfg targetFolder l r).trace = r.trace := by
  intro l
  induction l with
  | nil => intro r; exact ⟨rfl, rfl⟩
  | cons src rest ih =>
    intro r
    obtain ⟨hs, ht⟩ := mergeFolder_dry h src.id targetFolder.id r.store
    simp only [mergeSourcesLoop]
    by_cases hemp :
        (mergeFolder cfg src.id targetFolder.id r.store).store.isFolderEmptyB src.id = true
    · rw [if_pos hemp]
      obtain ⟨ih1, ih2⟩ := ih _
      rw [ih1, ih2]
      simp [h, hs, ht]
    · rw [if_neg hemp]
      obtain ⟨ih1, ih2⟩ := ih _
      rw [ih1, ih2]
      simp [hs, ht]

theorem mergeGroupsLoop_dry {cfg : RuntimeConfig} (h : cfg.DRY_RUN = true)
    (timeUp : Nat → Bool) (fuel : Nat) :
    ∀ (l : List ((Nat × String) × List FolderNode)) (r : MergeRunResult),
      (mergeGroupsLoop cfg timeUp fuel l r).store = r.store ∧
      (mergeGroupsLoop cfg timeUp fuel l r).trace = r.trace := by
  intro l
  induction l with
  | nil => intro r; exact ⟨rfl, rfl⟩
  | cons kg rest ih =>
    intro r
    obtain ⟨key, folders⟩ := kg
    simp only [mergeGroupsLoop]
    by_cases hlen : folders.length < 2
    · rw [if_pos hlen]
      exact ih r
    · rw [if_neg hlen]
      by_cases htime : timeUp r.tick = true
      · rw [if_pos htime]
        exact ⟨rfl, rfl⟩
      · rw [if_neg htime]
        cases hsel : selectTargetFolder folders cfg r.store fuel with
        | none => exact ih _
        | some targetFolder =>
          obtain ⟨ih1, ih2⟩ := ih (mergeSourcesLoop cfg targetFolder
            (folders.filter (fun f => f.id ≠ targetFolder.id))
            { r with tick := r.tick + 1 })
          obtain ⟨hs, ht⟩ := mergeSourcesLoop_dry h targetFolder
            (folders.filter (fun f => f.id ≠ targetFolder.id))
            { r with tick := r.tick + 1 }
          exact ⟨by rw [ih1, hs], by rw [ih2, ht]⟩

theorem mergeDuplicateFolders_dry {cfg : RuntimeConfig}
    (h : cfg.DRY_RUN = true) (root : MFolder) (s : MStore)
    (timeUp : Nat → Bool) (tick fuel : Nat) :
    (mergeDuplicateFolders root cfg s timeUp tick fuel).store = s ∧
    (mergeDuplicateFolders root cfg s timeUp tick fuel).trace = [] := by
  unfold mergeDuplicateFolders
  simp only []
  split
  · exact ⟨rfl, rfl⟩
  · exact mergeGroupsLoop_dry h timeUp fuel _ _

/-- **C8 (amended).** In dry-run mode neither the folder-merge pass nor the
per-folder dedup pass issues a mutating Store call (empty operation trace,
store unchanged), and the dedup-pass statistics and deletion decisions equal
those of a non-dry run on the same initial store state.  (The merge-pass
statistics need **not** equal a non-dry run's — see the counterexample: the
empty-source-folder check consults the live store, which dry-run leaves
unmoved.) -/
theorem c8_dry_run_no_mutations_dedup_stats_equal :
    (∀ (root : MFolder) (cfg : RuntimeConfig) (s : MStore)
        (timeUp : Nat → Bool) (tick fuel : Nat), cfg.DRY_RUN = true →
      (mergeDuplicateFolders root cfg s timeUp tick fuel).store = s ∧
      (mergeDuplicateFolders root cfg s timeUp tick fuel).trace = []) ∧
    (∀ (cfg : RuntimeConfig) (s : MStore) (fid : Nat), cfg.DRY_RUN = true →
      (processFolderS cfg s fid).1 = s ∧ (processFolderS cfg s fid).2.2 = []) ∧
    (∀ (cfg : RuntimeConfig) (files : List MFile) (b : Bool),
      processFolderStats { cfg with DRY_RUN := b } files =
        processFolderStats cfg files ∧
      dedupTrashIds { cfg with DRY_RUN := b } files = dedupTrashIds cfg files) ∧
    (∀ (cfg : RuntimeConfig) (s : MStore) (fid : Nat) (b : Bool),
      (processFolderS { cfg with DRY_RUN := b } s fid).2.1 =
        (processFolderS cfg s fid).2.1) := by
  refine ⟨?_, ?_, ?_, ?_⟩
  · intro root cfg s timeUp tick fuel h
    exact mergeDuplicateFolders_dry h root s timeUp tick fuel
  · intro cfg s fid h
    simp [processFolderS, h]
  · intro cfg files b
    exact ⟨rfl, rfl⟩
  · intro cfg s fid b
    have hstats : ∀ l, processFolderStats { cfg with DRY_RUN := b } l =
        processFolderStats cfg l := fun l => rfl
    cases hc : cfg.DRY_RUN <;> cases b <;>
      simp [processFolderS, hc, hstats]

/-- A store with a root folder and two same-named sibling folders, the later
one holding one file; merging moves the file and (in live mode only) empties
and removes the source folder. -/
def mergeStore : MStore :=
  ⟨[⟨100, "root", none, 0, 0, false⟩,
    ⟨1, "acme", some 100, 0, 0, false⟩,
    ⟨2, "acme", some 100, 1000, 0, false⟩],
   [⟨20, "b.pdf", some "hb", 0, 10, 2, false⟩]⟩

/-- The root folder of `mergeStore`. -/
def mergeRoot : MFolder := ⟨100, "root", none, 0, 0, false⟩

/-- Dry-run merge configuration over `mergeStore`. -/
def mergeCfgDry : RuntimeConfig :=
  ⟨[100], 86400000, 0, [], [], FolderSortMode.LAST_UPDATED, true, true,
    KeepStrategy.OLDEST, true⟩

/-- Live merge configuration over `mergeStore`. -/
def mergeCfgLive : RuntimeConfig :=
  ⟨[100], 86400000, 0, [], [], FolderSortMode.LAST_UPDATED, true, true,
    KeepStrategy.OLDEST, false⟩

/-- **C8 counterexample.** On the same initial store, the dry run reports
`emptyFoldersDeleted = 0` (the unmoved file keeps the source folder
non-empty) while the live run reports `1`: the merge-pass statistics of a
dry run do not equal those of a non-dry run, refuting the claim's
statistics-equality clause. -/
theorem c8_merge_stats_dry_differs_from_live :
    mergeCfgDry = { mergeCfgLive with DRY_RUN := true } ∧
    (mergeDuplicateFolders mergeRoot mergeCfgDry mergeStore
      (fun _ => false) 0 10).stats.emptyFoldersDeleted = 0 ∧
    (mergeDuplicateFolders mergeRoot mergeCfgLive mergeStore
      (fun _ => false) 0 10).stats.emptyFoldersDeleted = 1 ∧
    (mergeDuplicateFolders mergeRoot mergeCfgDry mergeStore
      (fun _ => false) 0 10).stats ≠
      (mergeDuplicateFolders mergeRoot mergeCfgLive mergeStore
        (fun _ => false) 0 10).stats := by
  decide

/-- Witness for the amended C8, instantiating the dry-run clauses at the
concrete merge fixture and a concrete folder. -/
theorem c8_dry_run_no_mutations_dedup_stats_equal_witness :
    mergeCfgDry.DRY_RUN = true ∧
    ((mergeDuplicateFolders mergeRoot mergeCfgDry mergeStore
        (fun _ => false) 0 10).store = mergeStore ∧
      (mergeDuplicateFolders mergeRoot mergeCfgDry mergeStore
        (fun _ => false) 0 10).trace = []) ∧
    ((processFolderS mergeCfgDry mergeStore 2).1 = mergeStore ∧
      (processFolderS mergeCfgDry mergeStore 2).2.2 = []) :=
  ⟨rfl,
    c8_dry_run_no_mutations_dedup_stats_equal.1 mergeRoot mergeCfgDry
      mergeStore (fun _ => false) 0 10 rfl,
    c8_dry_run_no_mutations_dedup_stats_equal.2.1 mergeCfgDry mergeStore 2 rfl⟩

/-! ## Claim C5 -/

theorem processFolderS_trace_ops (cfg : RuntimeConfig) (s : MStore) (fid : Nat) :
    ∀ op ∈ (processFolderS cfg s fid).2.2, ∃ i, op = StoreOp.trashFile i := by
  intro op hop
  unfold processFolderS at hop
  by_cases h : cfg.DRY_RUN = true
  · rw [if_pos h] at hop
    exact absurd hop (List.not_mem_nil op)
  · rw [if_neg h] at hop
    rcases List.mem_map.1 hop with ⟨i, _, rfl⟩
    exact ⟨i, rfl⟩

theorem processFoldersLoop_trace_ops (cfg : RuntimeConfig) (timeUp : Nat → Bool) :
    ∀ (l : List FolderInfo) (r : CleanResult),
      (∀ op ∈ r.trace, ∃ i, op = StoreOp.trashFile i) →
      ∀ op ∈ (processFoldersLoop cfg timeUp l r).trace,
        ∃ i, op = StoreOp.trashFile i := by
  intro l
  induction l with
  | nil => intro r hr; exact hr
  | cons fi rest ih =>
    intro r hr op hop
    simp only [processFoldersLoop] at hop
    by_cases ht : timeUp r.tick = true
    · rw [if_pos ht] at hop
      exact hr op hop
    · rw [if_neg ht] at hop
      refine ih _ ?_ op hop
      intro op' hop'
      rcases List.mem_append.1 hop' with h1 | h1
      · exact hr op' h1
      · exact processFolderS_trace_ops cfg r.store fi.folder.id op' h1

theorem processRootFolder_trace_ops (root : MFolder) (cfg : RuntimeConfig)
    (s : MStore) (timeUp : Nat → Bool) (rand : Nat → Nat) (tick : Nat) :
    ∀ op ∈ (processRootFolder root cfg s timeUp rand tick).trace,
      ∃ i, op = StoreOp.trashFile i := by
  intro op hop
  unfold processRootFolder at hop
  exact processFoldersLoop_trace_ops cfg timeUp _ _
    (fun op' h => absurd h (List.not_mem_nil op')) op hop

theorem cleanRootsLoop_trace_ops (cfg : RuntimeConfig) (timeUp : Nat → Bool)
    (rand : Nat → Nat) :
    ∀ (roots : List Nat) (r : CleanResult),
      (∀ op ∈ r.trace, ∃ i, op = StoreOp.trashFile i) →
      ∀ op ∈ (cleanRootsLoop cfg timeUp rand roots r).trace,
        ∃ i, op = StoreOp.trashFile i := by
  intro roots
  induction roots with
  | nil => intro r hr; exact hr
  | cons rid rest ih =>
    intro r hr op hop
    simp only [cleanRootsLoop] at hop
    by_cases ht : timeUp r.tick = true
    · rw [if_pos ht] at hop
      exact hr op hop
    · rw [if_neg ht] at hop
      cases hfind : r.store.folders.find? (fun f => f.id = rid) with
      | none =>
        rw [hfind] at hop
        exact ih { r with tick := r.tick + 1 } hr op hop
      | some root =>
        rw [hfind] at hop
        refine ih ⟨(processRootFolder root cfg r.store timeUp rand (r.tick + 1)).store,
          addProcessingStats r.stats
            (processRootFolder root cfg r.store timeUp rand (r.tick + 1)).stats,
          r.trace ++ (processRootFolder root cfg r.store timeUp rand (r.tick + 1)).trace,
          (processRootFolder root cfg r.store timeUp rand (r.tick + 1)).tick⟩ ?_ op hop
        intro op' hop'
        rcases List.mem_append.1 hop' with h1 | h1
        · exact hr op' h1
        · exact processRootFolder_trace_ops root cfg r.store timeUp rand
            (r.tick + 1) op' h1

/-- Configuration with folder merging enabled, live mode. -/
def c5cfg : RuntimeConfig :=
  ⟨[100], 86400000, 0, [], [], FolderSortMode.LAST_UPDATED, true, true,
    KeepStrategy.OLDEST, false⟩

/-- A store with both merge work (two sibling `acme` folders, one holding a
movable file) and dedup work (two same-hash files created 1 s apart). -/
def c5store : MStore :=
  ⟨[⟨100, "root", none, 0, 0, false⟩,
    ⟨1, "acme", some 100, 0, 0, false⟩,
    ⟨2, "acme", some 100, 1000, 0, false⟩],
   [⟨20, "b.pdf", some "hb", 0, 10, 2, false⟩,
    ⟨60, "d1.pdf", some "hd", 0, 10, 1, false⟩,
    ⟨61, "d2.pdf", some "hd", 1000, 10, 1, false⟩]⟩

/-- The root folder of `c5store`. -/
def c5root : MFolder := ⟨100, "root", none, 0, 0, false⟩

/-- **C5 (code evaluation).** The top-level cleaning run never performs the
folder-merge pass: every mutating Store call it ever issues — for every
configuration (merging enabled or not), store, clock and shuffle oracle — is
a dedup `setTrashed` on a file; no move, rename or folder-trash ever occurs,
because `cleanDuplicateAttachments` (main.ts) never invokes
`mergeDuplicateFolders`.  Concretely, with merging enabled on a store holding
both duplicate sibling folders and in-folder duplicate files, the merge pass
— had it been invoked — would issue a file move, yet the whole cleaning run's
trace is exactly one dedup trash call. -/
theorem c5_merge_phase_never_invoked :
    (∀ (cfg : RuntimeConfig) (s : MStore) (timeUp : Nat → Bool)
        (rand : Nat → Nat),
      ∀ op ∈ (cleanDuplicateAttachments cfg s timeUp rand).trace,
        ∃ i, op = StoreOp.trashFile i) ∧
    c5cfg.MERGE_DUPLICATE_FOLDERS = true ∧
    StoreOp.moveFile 20 1 ∈
      (mergeDuplicateFolders c5root c5cfg c5store (fun _ => false) 0 10).trace ∧
    (cleanDuplicateAttachments c5cfg c5store (fun _ => false)
        (fun _ => 0)).trace = [StoreOp.trashFile 61] := by
  refine ⟨?_, rfl, by decide, by decide⟩
  intro cfg s timeUp rand op hop
  unfold cleanDuplicateAttachments at hop
  exact cleanRootsLoop_trace_ops cfg timeUp rand _ _
    (fun op' h => absurd h (List.not_mem_nil op')) op hop

/-- Witness for C5: the one mutating call of the concrete cleaning run is a
file trash. -/
theorem c5_merge_phase_never_invoked_witness :
    StoreOp.trashFile 61 ∈
      (cleanDuplicateAttachments c5cfg c5store (fun _ => false)
        (fun _ => 0)).trace ∧
    (∃ i, StoreOp.trashFile 61 = StoreOp.trashFile i) :=
  ⟨by decide,
    c5_merge_phase_never_invoked.1 c5cfg c5store (fun _ => false) (fun _ => 0)
      (StoreOp.trashFile 61) (by decide)⟩
